import Mathlib

/-! # CScan: the search orchestration engine and its collaborators

A shallow embedding of the rate limiter, the query translator, the per-target
pagination loop and the batch fan-out of `internal/cse/cse.go`, of the company
orchestrator (`internal/co/co.go`, `internal/co/zone/scanner.go`), of the
start-up checks of `internal/common/config/config.go` and `cmd/main.go`, and of
the target validation and de-duplication of `internal/common/excel/excel.go`,
followed by the properties proved about them.

Conventions of the embedding:

* `time.Duration` and instants of `time.Time` are integers counting nanoseconds;
  `time.Duration` arithmetic is `int64` arithmetic and wraps (`wrap64`).
* A Go `error` is modelled by its message; the `nil` error is `none`, and a
  call returning `(assets, err)` is an `Except String (List Asset)`.
* `rand.Int63n(1000)` is an input of `handleError` (a value below 1000).
* A backend (`Scanner`) is its `Name()` together with its `Search` as a function
  of `(query, page, size)`.
* The calls a run makes (`wait`, `Search`, `handleError`) are recorded, in
  order, in a list of `Call`s. The limiter used for a scanner is the one
  registered under its name (`e.rateLimits[scanner.Name()]`, present for every
  scanner of an engine built by `NewSearchEngine`), so a limiter call is recorded
  with that name; what such a call does to the limiter is `APIRateLimit.wait` and
  `APIRateLimit.handleError`. The control flow of `searchSingle` never reads the
  limiter state.
* The network and file operations of the zone scanner (`searchByType`,
  `SaveResults`) are given by what they answer.
* Library functions on strings (`strings.Contains`, `strings.Split`,
  `strings.Join`, `strconv.Atoi`, `filepath.Ext`) work on the characters of the
  string; the separators and markers involved are ASCII, for which bytes and
  characters agree.
* Go `int` is 64 bits wide. The page counter of `searchSingle` is an unbounded
  integer: the loop is the source loop for every `maxPage` below `2^63 - 1`.
-/

namespace CScan

/-! ## Data model (`internal/common/model/asset.go`, `cse.go`) -/

/-- Asset record of `model.Asset`: every field is a string. -/
structure Asset where
  IP : String := ""
  Domain : String := ""
  Port : String := ""
  Service : String := ""
  Title : String := ""
  StatusCode : String := ""
  ICPOrg : String := ""
  Location : String := ""
  Source : String := ""
  UpdatedAt : String := ""
  Registrar : String := ""
  RegisterTime : String := ""
  ExpireTime : String := ""
  Status : String := ""
  Package : String := ""
  Version : String := ""
  Platform : String := ""
  Size : String := ""
  Developer : String := ""
  Category : String := ""
  Language : String := ""
  Department : String := ""
  Position : String := ""
deriving DecidableEq, Repr

/-- Target of a search: `Value` and `Type` (`"ip"` or `"domain"`); the field
`Type` of the source is named `Typ` here. -/
structure Target where
  Value : String
  Typ : String
deriving DecidableEq, Repr

/-- Scanner interface of `cse.go`: `Name()` and `Search(query, page, size)`. -/
structure Scanner where
  Name : String
  Search : String → Int → Int → Except String (List Asset)

/-! ## Durations -/

/-- One `time.Millisecond`, in nanoseconds. -/
def Millisecond : Int := 1000000

/-- One `time.Second`, in nanoseconds. -/
def Second : Int := 1000000000

/-- Default spacing between two calls to a backend: `2 * time.Second`. -/
def DefaultInterval : Int := 2 * Second

/-- Spacing used for the backend named `"Zone"`: `2 * time.Second`. -/
def ZoneInterval : Int := 2 * Second

/-- Largest back-off interval: `60 * time.Second`. -/
def MaxRetryWait : Int := 60 * Second

/-- Two's-complement wrap of an integer into the `int64` range. -/
def wrap64 (x : Int) : Int := (x + 2 ^ 63) % 2 ^ 64 - 2 ^ 63

/-- Shift `1 << n` evaluated in `int64` for an unsigned shift count `n`: a count
of 64 or more shifts every bit out. -/
def shl1 (n : Nat) : Int := if n < 64 then wrap64 (2 ^ n) else 0

/-- Conversion `uint(x)` of an `int`, both 64 bits wide. -/
def toUint (x : Int) : Nat := (x % 2 ^ 64).toNat

/-! ## Rate limiter -/

/-- Limiter state `APIRateLimit` (the mutex is not part of the state). -/
structure APIRateLimit where
  interval : Int
  lastRequest : Int
  retryCount : Int
deriving DecidableEq, Repr

/-- Constructor `newAPIRateLimit(interval)`; `now` is the reading of `time.Now()`. -/
def newAPIRateLimit (interval : Int) (now : Int) : APIRateLimit :=
  { interval := interval, lastRequest := now, retryCount := 0 }

/-- Method `wait()`, entered when the clock reads `now`; returns the new state
and the clock reading on return. `time.Sleep(d)` advances the clock by `d`. -/
def APIRateLimit.wait (r : APIRateLimit) (now : Int) : APIRateLimit × Int :=
  let elapsed := now - r.lastRequest
  let now1 := if elapsed < r.interval then now + (r.interval - elapsed) else now
  ({ r with lastRequest := now1 }, now1)

/-- Substring test `strings.Contains(s, substr)`. -/
def stringsContains (s substr : String) : Bool :=
  s.data.tails.any (fun t => substr.data.isPrefixOf t)

/-- Classifier `isRateLimitError`. -/
def isRateLimitError (err : Option String) : Bool :=
  match err with
  | none => false
  | some errStr =>
    stringsContains errStr "rate limit" ||
    stringsContains errStr "too many requests" ||
    stringsContains errStr "请求太多" ||
    stringsContains errStr "请求过于频繁" ||
    stringsContains errStr "429"

/-- Classifier `isAPIError`. -/
def isAPIError (err : Option String) : Bool :=
  match err with
  | none => false
  | some errStr =>
    stringsContains errStr "API错误" ||
    stringsContains errStr "cannot unmarshal" ||
    stringsContains errStr "稍后再试"

/-- Method `handleError(err)`, entered when the clock reads `now`; `jitter` is
the value drawn by `rand.Int63n(1000)`. Returns the new state and the clock
reading on return (`time.Sleep` of a non-positive duration returns at once). -/
def APIRateLimit.handleError (r : APIRateLimit) (err : Option String) (jitter : Fin 1000)
    (now : Int) : APIRateLimit × Int :=
  if isRateLimitError err || isAPIError err then
    let retryCount := wrap64 (r.retryCount + 1)
    let backoff := wrap64 (shl1 (toUint retryCount) * Second)
    let jit := wrap64 ((jitter.val : Int) * Millisecond)
    let interval := wrap64 (backoff + jit)
    let interval := if interval > MaxRetryWait then MaxRetryWait else interval
    ({ r with retryCount := retryCount, interval := interval }, now + max interval 0)
  else
    (r, now)

/-- One call on a limiter: `wait()` or `handleError(err)` with the jitter drawn. -/
inductive LimiterOp where
  | wait
  | handleError (err : Option String) (jitter : Fin 1000)
deriving DecidableEq, Repr

/-- Run one limiter call entered at clock reading `st.2`. -/
def APIRateLimit.apply (st : APIRateLimit × Int) : LimiterOp → APIRateLimit × Int
  | .wait => st.1.wait st.2
  | .handleError err jitter => st.1.handleError err jitter st.2

/-- Run a finite sequence of calls on one limiter; before each call the caller
spends `idle` nanoseconds elsewhere. -/
def APIRateLimit.run (r : APIRateLimit) (now : Int) (ops : List (Nat × LimiterOp)) :
    APIRateLimit × Int :=
  ops.foldl (fun st op => APIRateLimit.apply (st.1, st.2 + (op.1 : Int)) op.2) (r, now)

/-- Number of `handleError` calls in a sequence of limiter calls. -/
def errorCalls (ops : List (Nat × LimiterOp)) : Nat :=
  (ops.filter (fun op => op.2 ≠ LimiterOp.wait)).length

/-! ## Search engine -/

/-- Manager `SearchEngine`: the backends in registration order (a `nil` entry is
`none`) and the limiter registered under each backend name. -/
structure SearchEngine where
  scanners : List (Option Scanner)
  rateLimits : List (String × APIRateLimit)

/-- Map assignment `m[k] = v`. -/
def mapSet {α : Type} (m : List (String × α)) (k : String) (v : α) : List (String × α) :=
  (k, v) :: m.filter (fun kv => kv.1 ≠ k)

/-- Map lookup `m[k]`; `none` when the key is absent. -/
def mapGet {α : Type} (m : List (String × α)) (k : String) : Option α :=
  (m.find? (fun kv => kv.1 = k)).map (fun kv => kv.2)

/-- Loop of `NewSearchEngine` registering one limiter per scanner name; calling
`Name()` on a `nil` scanner is a run-time failure (`none`). -/
def registerLimits (now : Int) :
    List (Option Scanner) → List (String × APIRateLimit) → Option (List (String × APIRateLimit))
  | [], m => some m
  | none :: _, _ => none
  | some scanner :: rest, m =>
    let interval := if scanner.Name = "Zone" then ZoneInterval else DefaultInterval
    registerLimits now rest (mapSet m scanner.Name (newAPIRateLimit interval now))

/-- Constructor `NewSearchEngine(scanners...)`; `now` is the reading of `time.Now()`. -/
def NewSearchEngine (scanners : List (Option Scanner)) (now : Int) : Option SearchEngine :=
  (registerLimits now scanners []).map (fun m => { scanners := scanners, rateLimits := m })

/-- Query translator `buildQuery(scannerName, target)`. -/
def buildQuery (scannerName : String) (target : Target) : String :=
  if scannerName = "Hunter" then
    if target.Typ = "ip" then "ip=\"" ++ target.Value ++ "\""
    else "domain.suffix=\"" ++ target.Value ++ "\""
  else if scannerName = "FOFA" then
    if target.Typ = "ip" then "ip=\"" ++ target.Value ++ "\""
    else "domain=\"" ++ target.Value ++ "\""
  else if scannerName = "Quake" then
    if target.Typ = "ip" then "ip:" ++ target.Value
    else "domain:" ++ target.Value
  else ""

/-- One call made during a run, on the limiter or the scanner of the given name. -/
inductive Call where
  | wait (limiter : String)
  | search (scanner : String) (query : String) (page : Int) (size : Int)
  | handleError (limiter : String) (err : String)
deriving DecidableEq, Repr

/-- State of one `searchSingle` run: the running `results` slice and the calls
made so far. -/
structure Run where
  results : List Asset
  calls : List Call
deriving DecidableEq, Repr

/-- Page loop `for page := 1; page <= maxPage; page++` of `searchSingle` for one
scanner, from `page` on, with `fuel` iterations left (`maxPage - page + 1`). Each
iteration calls `wait()` and `Search`; an error calls `handleError` and leaves
the loop, an empty page leaves the loop, a non-empty page is appended. -/
def paginate (scanner : Scanner) (query : String) (pageSize : Int) :
    Nat → Int → Run → Run
  | 0, _, st => st
  | fuel + 1, page, st =>
    let st1 : Run :=
      { st with calls := st.calls ++ [Call.wait scanner.Name,
                                      Call.search scanner.Name query page pageSize] }
    match scanner.Search query page pageSize with
    | .error err => { st1 with calls := st1.calls ++ [Call.handleError scanner.Name err] }
    | .ok assets =>
      if assets.length = 0 then st1
      else paginate scanner query pageSize fuel (page + 1)
        { st1 with results := st1.results ++ assets }

/-- Body of the scanner loop of `searchSingle`: skip a `nil` scanner, otherwise
translate the target and run the page loop from page 1. -/
def visit (target : Target) (maxPage pageSize : Int) (st : Run) : Option Scanner → Run
  | none => st
  | some scanner =>
    paginate scanner (buildQuery scanner.Name target) pageSize maxPage.toNat 1 st

/-- Result of `searchSingle`: the assets, the returned error, and the calls made. -/
structure SingleResult where
  results : List Asset
  err : Option String
  calls : List Call
deriving DecidableEq, Repr

/-- Method `searchSingle(target, maxPage, pageSize)`: visit every scanner in
registration order; the returned error is always `nil`. -/
def searchSingle (e : SearchEngine) (target : Target) (maxPage pageSize : Int) : SingleResult :=
  let st := e.scanners.foldl (visit target maxPage pageSize) { results := [], calls := [] }
  { results := st.results, err := none, calls := st.calls }

/-- Shared state of `SearchTargets`: `results`, `errs`, and the calls made. -/
structure Batch where
  results : List Asset
  errs : List String
  calls : List Call
deriving DecidableEq, Repr

/-- Body of one per-target goroutine of `SearchTargets` between acquiring and
releasing the semaphore: run `searchSingle`, then, under the mutex, record the
error or append the assets. -/
def task (e : SearchEngine) (maxPage pageSize : Int) (st : Batch) (t : Target) : Batch :=
  let r := searchSingle e t maxPage pageSize
  match r.err with
  | some err => { st with errs := st.errs ++ [err], calls := st.calls ++ r.calls }
  | none => { st with results := st.results ++ r.results, calls := st.calls ++ r.calls }

/-- Rendering of a `[]error` by the verb `%v`: the messages, space separated,
in square brackets. -/
def fmtErrs (errs : List String) : String := "[" ++ " ".intercalate errs ++ "]"

/-- Method `SearchTargets(targets, maxPage, pageSize)`. The semaphore has
capacity 1 and is released only after the goroutine has appended its result, so
the goroutines run one at a time; `admitted` lists the targets in the order in
which their goroutines acquire the semaphore (a rearrangement of `targets`). -/
def SearchTargets (e : SearchEngine) (admitted : List Target) (maxPage pageSize : Int) :
    SingleResult :=
  let st := admitted.foldl (task e maxPage pageSize) { results := [], errs := [], calls := [] }
  if st.errs.length > 0 then
    { results := st.results, err := some ("部分搜索失败: " ++ fmtErrs st.errs), calls := st.calls }
  else
    { results := st.results, err := none, calls := st.calls }

/-- The empty run state: nothing collected, nothing called. -/
def Run.empty : Run := { results := [], calls := [] }

/-! ## Target parsing and result de-duplication (`internal/common/excel/excel.go`) -/

namespace excel

/-- Library function `strings.Split(s, sep)` for a one-character separator, on
the characters of `s`: the pieces between the separators, `[""]` for the empty
string. -/
def splitChars (sep : Char) : List Char → List (List Char)
  | [] => [[]]
  | c :: rest =>
    if c = sep then [] :: splitChars sep rest
    else
      match splitChars sep rest with
      | [] => [[c]]
      | p :: ps => (c :: p) :: ps

/-- Library function `strings.Split(s, sep)` for a one-character separator. -/
def stringsSplit (s : String) (sep : Char) : List String :=
  (splitChars sep s.data).map String.mk

/-- Library function `strings.Join(parts, sep)`, on characters. -/
def joinChars (sep : List Char) : List (List Char) → List Char
  | [] => []
  | [p] => p
  | p :: q :: rest => p ++ sep ++ joinChars sep (q :: rest)

/-- Library function `strings.Join(parts, sep)`. -/
def stringsJoin (parts : List String) (sep : String) : String :=
  ⟨joinChars sep.data (parts.map String.data)⟩

/-- Digit loop of `strconv.Atoi`: the value of a run of decimal digits, `none`
when a character is not a decimal digit. -/
def digitsValue : List Char → Nat → Option Nat
  | [], n => some n
  | ch :: rest, n =>
    if '0' ≤ ch ∧ ch ≤ '9' then digitsValue rest (n * 10 + (ch.toNat - '0'.toNat)) else none

/-- Library function `strconv.Atoi(s)`: an optional sign `+` or `-`, then at
least one decimal digit; `none` stands for a syntax or range error. -/
def strconvAtoi (s : String) : Option Int :=
  match s.data with
  | [] => none
  | c :: rest =>
    let digits := if c = '-' ∨ c = '+' then rest else c :: rest
    if digits = [] then none
    else
      match digitsValue digits 0 with
      | none => none
      | some n =>
        let v : Int := if c = '-' then -(n : Int) else (n : Int)
        if v < -2 ^ 63 ∨ v > 2 ^ 63 - 1 then none else some v

/-- Function `isValidIP(ip)`. -/
def isValidIP (ip : String) : Bool :=
  let parts := stringsSplit ip '.'
  if parts.length ≠ 4 then false
  else
    parts.all (fun part =>
      match strconvAtoi part with
      | none => false
      | some num => !(decide (num < 0) || decide (num > 255)))

/-- Map literal `specialTLDs` of `normalizeDomain`: the keys mapped to `true`. -/
def specialTLDs : List String :=
  ["com.cn", "org.cn", "net.cn", "gov.cn", "edu.cn", "co.jp", "co.uk"]

/-- Function `normalizeDomain(domain)`. -/
def normalizeDomain (domain : String) : String :=
  let parts := stringsSplit domain '.'
  if parts.length ≤ 2 then domain
  else
    let lastTwo := stringsJoin (parts.drop (parts.length - 2)) "."
    if lastTwo ∈ specialTLDs then
      if parts.length > 3 then stringsJoin (parts.drop (parts.length - 3)) "."
      else domain
    else if parts.length > 2 then stringsJoin (parts.drop (parts.length - 2)) "."
    else domain

/-- Function `generateAssetKey(asset)`. -/
def generateAssetKey (asset : Asset) : String :=
  if asset.IP ≠ "" ∧ asset.Port ≠ "" then asset.IP ++ ":" ++ asset.Port
  else if asset.Domain ≠ "" then asset.Domain
  else
    stringsJoin
      ([asset.IP, asset.Domain, asset.Port, asset.Service, asset.Title, asset.StatusCode,
        asset.ICPOrg, asset.Location].filter (fun part => part ≠ "")) "|"

/-- Loop of `deduplicateAssets` over the remaining assets: `seen` holds the keys
marked `true`, `result` the assets kept so far. -/
def dedupLoop (seen : List String) (result : List Asset) : List Asset → List Asset
  | [] => result
  | asset :: rest =>
    let key := generateAssetKey asset
    if key ∈ seen then dedupLoop seen result rest
    else dedupLoop (key :: seen) (result ++ [asset]) rest

/-- Function `deduplicateAssets(assets)`. -/
def deduplicateAssets (assets : List Asset) : List Asset := dedupLoop [] [] assets

end excel

/-! ## Concrete inputs used to exercise the definitions -/

/-- A scanner scripted page by page: page `i` answers with the `i`-th entry of
`pages`, and every other page with an empty list. -/
def scripted (name : String) (pages : List (Except String (List Asset))) : Scanner :=
  { Name := name
    Search := fun _ page _ => if 1 ≤ page then pages.getD (page - 1).toNat (.ok []) else .ok [] }

/-- The target of the worked example of the specification. -/
def exampleIP : Target := { Value := "93.184.216.34", Typ := "ip" }

/-- A second target, a domain. -/
def exampleDomain : Target := { Value := "example.com", Typ := "domain" }

/-- Three sample assets. -/
def assetA : Asset := { IP := "93.184.216.34", Port := "80", Source := "Hunter" }

def assetB : Asset := { IP := "93.184.216.34", Port := "443", Source := "Hunter" }

def assetC : Asset := { IP := "93.184.216.34", Port := "8080", Source := "Hunter" }

/-! ## Company orchestrator (`internal/co/zone/scanner.go`, `internal/co/co.go`)

A Go `map[string][]model.Asset` is an association list with the most recently
assigned key first; its lookups (`mapGet`) are what the map holds. Where the
source ranges over a map and the visiting order shows in the outcome, the order
is an explicit argument. -/

/-- A `map[string][]model.Asset`. -/
abbrev AssetMap := List (String × List Asset)

/-- The keys currently present in a map. -/
def mapKeys {α : Type} (m : List (String × α)) : List String := m.map (fun kv => kv.1)

namespace zone

/-- Package variable `searchTypes`: the supported subtypes with their headers. -/
def searchTypes : List (String × List String) :=
  [("site", ["IP", "Domain", "Port", "Service", "Title", "Status", "Location", "Company",
             "UpdateTime"]),
   ("apk", ["Name", "Package", "Version", "Platform", "Size", "Developer", "Category",
            "UpdateTime"]),
   ("domain", ["Domain", "Registrar", "RegisterTime", "ExpireTime", "Status", "Company",
               "UpdateTime"]),
   ("email", ["Email", "Source", "Company", "UpdateTime"]),
   ("code", ["Title", "URL", "Language", "Source", "UpdateTime"]),
   ("member", ["Name", "Position", "Department", "Company", "Source", "UpdateTime"])]

/-- The zone scanner, seen through what its network and file operations answer:
`searchByType company queryType page size` is the outcome of the subtype query,
`SaveResults results filename` the error (if any) of writing the workbook, and
`typeOrder` the order in which `range searchTypes` visits the subtypes. -/
structure Scanner where
  searchByType : String → String → Int → Int → Except String (List Asset)
  SaveResults : AssetMap → String → Option String
  typeOrder : List String

/-- Method `Name()` of the zone scanner. -/
def Scanner.Name (_s : Scanner) : String := "Zone"

/-- The record stored for a subtype whose query was refused for lack of
permission. -/
def placeholder (searchType : String) : Asset :=
  { Title := "API访问受限"
    Source := "0.zone"
    Service := "当前API Key无" ++ searchType ++ "数据访问权限" }

/-- Body of the loop of `SearchByCompany` for one subtype. -/
def searchStep (s : Scanner) (company : String) (page size : Int) (results : AssetMap)
    (searchType : String) : AssetMap :=
  match s.searchByType company searchType page size with
  | .error err =>
    if stringsContains err "无权限" || stringsContains err "未授权" then
      mapSet results searchType [placeholder searchType]
    else results
  | .ok typeResults =>
    if typeResults.length > 0 then mapSet results searchType typeResults else results

/-- Method `SearchByCompany(company, page, size)` of the zone scanner; the
returned error is always `nil`. -/
def Scanner.SearchByCompany (s : Scanner) (company : String) (page size : Int) :
    Except String AssetMap :=
  .ok (s.typeOrder.foldl (searchStep s company page size) [])

/-- Query builder `buildQuery(company)` of the zone package. -/
def buildQuery (company : String) : String :=
  "||".intercalate
    ["company==\"" ++ company ++ "\"",
     "title==\"" ++ company ++ "\"",
     "banner==\"" ++ company ++ "\"",
     "html_banner==\"" ++ company ++ "\"",
     "component==\"" ++ company ++ "\"",
     "ssl_info.detail==\"" ++ company ++ "\""]

end zone

namespace co

/-- A non-nil value of the interface `co.Scanner`: either a `*zone.Scanner` or a
value of another type, given by its two methods. -/
inductive Scanner where
  | zone (s : zone.Scanner)
  | other (name : String) (searchByCompany : String → Int → Int → Except String AssetMap)

/-- Method `Name()`. -/
def Scanner.Name : Scanner → String
  | .zone s => s.Name
  | .other name _ => name

/-- Method `SearchByCompany(company, page, size)`. -/
def Scanner.SearchByCompany : Scanner → String → Int → Int → Except String AssetMap
  | .zone s => s.SearchByCompany
  | .other _ f => f

/-- Manager `CompanyScanner`: the scanners in registration order (`nil` is `none`). -/
structure CompanyScanner where
  scanners : List (Option Scanner)

/-- One backend call made by `SearchCompanies`. -/
structure Call where
  scanner : String
  company : String
  page : Int
  size : Int
deriving DecidableEq, Repr

/-- Result of `SearchCompanies`: the assets, the returned error, the calls made. -/
structure Result where
  results : List Asset
  err : Option String
  calls : List Call
deriving DecidableEq, Repr

/-- Merge loop `allResults[searchType] = append(allResults[searchType], assets...)`
over the entries of `assetMap`. -/
def merge (allResults assetMap : AssetMap) : AssetMap :=
  assetMap.foldl (fun all kv => mapSet all kv.1 ((mapGet all kv.1).getD [] ++ kv.2)) allResults

/-- Body of the scanner loop of `SearchCompanies` for one company: skip a `nil`
scanner, query page 1, skip on error, otherwise merge the answer. -/
def step (pageSize : Int) (company : String) (st : AssetMap × List Call) :
    Option Scanner → AssetMap × List Call
  | none => st
  | some scanner =>
    let calls := st.2 ++ [{ scanner := scanner.Name, company := company, page := 1,
                            size := pageSize }]
    match scanner.SearchByCompany company 1 pageSize with
    | .error _ => (st.1, calls)
    | .ok assetMap => (merge st.1 assetMap, calls)

/-- The two nested loops of `SearchCompanies`: every company, every scanner. The
pause between companies has no effect on the state. -/
def collect (c : CompanyScanner) (companies : List String) (pageSize : Int) :
    AssetMap × List Call :=
  companies.foldl (fun st company => c.scanners.foldl (step pageSize company) st) ([], [])

/-- Method `getZoneScanner()`: the first scanner whose type is `*zone.Scanner`. -/
def getZoneScanner (c : CompanyScanner) : Option zone.Scanner :=
  c.scanners.findSome? (fun sc =>
    match sc with
    | some (.zone s) => some s
    | _ => none)

/-- Method `SearchCompanies(companies, maxPage, pageSize)`; `flat` is the order
in which the final `range allResults` visits the keys. -/
def SearchCompanies (c : CompanyScanner) (companies : List String) (maxPage pageSize : Int)
    (flat : List String) : Result :=
  let st := collect c companies pageSize
  let saved : Option String :=
    match getZoneScanner c with
    | some zoneScanner => zoneScanner.SaveResults st.1 "results.xlsx"
    | none => none
  match saved with
  | some err => { results := [], err := some ("保存结果失败: " ++ err), calls := st.2 }
  | none =>
    { results := flat.flatMap (fun k => (mapGet st.1 k).getD []), err := none, calls := st.2 }

end co

/-! ## Configuration and command line (`internal/common/config/config.go`, `cmd/main.go`) -/

namespace config

/-- Structure `Config`. -/
structure Config where
  HunterAPIKey : String
  FofaEmail : String
  FofaAPIKey : String
  ZoneAPIKey : String
  QuakeAPIKey : String
  MaxPage : Int
  PageSize : Int
deriving DecidableEq, Repr

/-- Package variable `defaultConfig`: the placeholder values. -/
def defaultConfig : Config :=
  { HunterAPIKey := "your-hunter-key"
    FofaEmail := "your-fofa-email"
    FofaAPIKey := "your-fofa-key"
    ZoneAPIKey := "your-zone-key"
    QuakeAPIKey := "your-quake-key"
    MaxPage := 5
    PageSize := 100 }

/-- Function `validateConfig(cfg)` of package `config`, called by `Load`; the
result is the error message, `none` for `nil`. -/
def validateConfig (cfg : Config) : Option String :=
  if cfg.MaxPage ≤ 0 then some "max_page 必须大于 0"
  else if cfg.PageSize ≤ 0 then some "page_size 必须大于 0"
  else if cfg.HunterAPIKey = defaultConfig.HunterAPIKey ∨
      cfg.FofaEmail = defaultConfig.FofaEmail ∨
      cfg.FofaAPIKey = defaultConfig.FofaAPIKey ∨
      cfg.ZoneAPIKey = defaultConfig.ZoneAPIKey ∨
      cfg.QuakeAPIKey = defaultConfig.QuakeAPIKey then
    some "请修改配置文件中的默认API密钥"
  else none

end config

namespace cmd

/-- Function `validateConfig(cfg, moduleType)` of `main.go`. -/
def validateConfig (cfg : config.Config) (moduleType : String) : Option String :=
  if cfg.MaxPage ≤ 0 then some "max_page 必须大于 0"
  else if cfg.PageSize ≤ 0 then some "page_size 必须大于 0"
  else if moduleType = "cse" then
    if cfg.HunterAPIKey = "your-hunter-key" ∧ cfg.FofaAPIKey = "your-fofa-key" ∧
        cfg.QuakeAPIKey = "your-quake-key" then
      some "请至少配置一个搜索引擎的 API Key"
    else none
  else if moduleType = "co" then
    if cfg.ZoneAPIKey = "your-zone-key" then some "请配置 Zone API Key" else none
  else none

/-- Scan of `filepath.Ext` from the last character towards the first, on the
reversed path: stop at a path separator, return the suffix at the first dot. -/
def extScan : List Char → List Char → List Char
  | [], _ => []
  | c :: rest, acc =>
    if c = '/' then []
    else if c = '.' then c :: acc
    else extScan rest (c :: acc)

/-- Library function `filepath.Ext(path)` (path separator `/`). -/
def filepathExt (path : String) : String := ⟨extScan path.data.reverse []⟩

/-- Library function `strings.HasSuffix(s, suffix)`. -/
def stringsHasSuffix (s suffix : String) : Bool := suffix.data.isSuffixOf s.data

/-- Library function `strings.TrimSuffix(s, suffix)`. -/
def stringsTrimSuffix (s suffix : String) : String :=
  if stringsHasSuffix s suffix then ⟨s.data.take (s.data.length - suffix.data.length)⟩ else s

/-- Function `ensureXLSXExtension(filename)`. -/
def ensureXLSXExtension (filename : String) : String :=
  if !stringsContains filename "." then filename ++ ".xlsx"
  else
    let ext := filepathExt filename
    if ext ≠ ".xlsx" then stringsTrimSuffix filename ext ++ ".xlsx"
    else filename

end cmd

/-- A backend whose name `buildQuery` does not know, answering one asset on
page 1. -/
def unknownBackend : Scanner := scripted "Zone" [.ok [assetA]]

/-- The engine `NewSearchEngine(unknownBackend)` builds when the clock reads 0. -/
def unknownEngine : SearchEngine :=
  { scanners := [some unknownBackend]
    rateLimits := [("Zone", newAPIRateLimit ZoneInterval 0)] }

/-- A zone scanner for which the `site` query fails in transport, the `email`
query is refused for lack of permission, and every other subtype is empty;
saving succeeds. -/
def exampleZone : zone.Scanner :=
  { searchByType := fun _ queryType _ _ =>
      if queryType = "site" then .error "请求失败: timeout"
      else if queryType = "email" then .error "无权限访问该数据"
      else .ok []
    SaveResults := fun _ _ => none
    typeOrder := ["site", "apk", "domain", "email", "code", "member"] }

/-! ## Structure of a `searchSingle` run -/

theorem paginate_acc (scanner : Scanner) (query : String) (pageSize : Int) :
    ∀ (fuel : Nat) (page : Int) (st : Run),
      paginate scanner query pageSize fuel page st =
        { results := st.results ++ (paginate scanner query pageSize fuel page Run.empty).results,
          calls := st.calls ++ (paginate scanner query pageSize fuel page Run.empty).calls } := by
  intro fuel
  induction fuel with
  | zero => intro page st; simp [paginate, Run.empty]
  | succ n ih =>
    intro page st
    unfold paginate
    cases hS : scanner.Search query page pageSize with
    | error err => simp [Run.empty]
    | ok assets =>
      by_cases hlen : assets.length = 0
      · simp [hlen, Run.empty]
      · simp only [hlen, if_false]
        rw [ih (page + 1) _]
        conv_rhs => rw [ih (page + 1) _]
        simp [Run.empty, List.append_assoc]

theorem visit_acc (target : Target) (maxPage pageSize : Int) (st : Run) (sc : Option Scanner) :
    visit target maxPage pageSize st sc =
      { results := st.results ++ (visit target maxPage pageSize Run.empty sc).results,
        calls := st.calls ++ (visit target maxPage pageSize Run.empty sc).calls } := by
  cases sc with
  | none => simp [visit, Run.empty]
  | some scanner =>
    simp only [visit]
    exact paginate_acc scanner _ pageSize _ 1 st

theorem foldl_visit_acc (target : Target) (maxPage pageSize : Int) :
    ∀ (l : List (Option Scanner)) (st : Run),
      l.foldl (visit target maxPage pageSize) st =
        { results := st.results ++ (l.foldl (visit target maxPage pageSize) Run.empty).results,
          calls := st.calls ++ (l.foldl (visit target maxPage pageSize) Run.empty).calls } := by
  intro l
  induction l with
  | nil => intro st; simp [Run.empty]
  | cons sc rest ih =>
    intro st
    simp only [List.foldl_cons]
    rw [ih (visit target maxPage pageSize st sc)]
    conv_rhs => rw [ih (visit target maxPage pageSize Run.empty sc)]
    rw [visit_acc target maxPage pageSize st sc]
    simp [List.append_assoc]

/-- Splitting the scanner list splits the run: the assets and the calls of
`searchSingle` over `pre ++ sc :: post` are those over `pre`, then those of
visiting `sc`, then those over `post`. -/
theorem searchSingle_split (e : SearchEngine) (target : Target) (maxPage pageSize : Int)
    (pre post : List (Option Scanner)) (sc : Option Scanner)
    (hscan : e.scanners = pre ++ sc :: post) :
    (searchSingle e target maxPage pageSize).results =
        (searchSingle { e with scanners := pre } target maxPage pageSize).results ++
        (visit target maxPage pageSize Run.empty sc).results ++
        (searchSingle { e with scanners := post } target maxPage pageSize).results ∧
    (searchSingle e target maxPage pageSize).calls =
        (searchSingle { e with scanners := pre } target maxPage pageSize).calls ++
        (visit target maxPage pageSize Run.empty sc).calls ++
        (searchSingle { e with scanners := post } target maxPage pageSize).calls := by
  simp only [searchSingle, hscan, List.foldl_append, List.foldl_cons]
  rw [foldl_visit_acc target maxPage pageSize post]
  rw [visit_acc target maxPage pageSize _ sc]
  simp [Run.empty, List.append_assoc]

/-- A run of `n` non-empty pages: when the `n` pages from `page` on succeed with
the non-empty lists `pg 0, ..., pg (n-1)`, the page loop appends them in order,
records a `wait` and a `Search` for each, and continues from page `page + n`. -/
theorem paginate_ok_pages (scanner : Scanner) (query : String) (pageSize : Int) :
    ∀ (n fuel : Nat) (page : Int) (pg : Nat → List Asset) (st : Run),
      (∀ i, i < n → scanner.Search query (page + (i : Int)) pageSize = .ok (pg i) ∧ pg i ≠ []) →
      paginate scanner query pageSize (n + fuel) page st =
        paginate scanner query pageSize fuel (page + (n : Int))
          { results := st.results ++ (List.range n).flatMap pg,
            calls := st.calls ++ (List.range n).flatMap (fun i =>
              [Call.wait scanner.Name, Call.search scanner.Name query (page + (i : Int)) pageSize]) } := by
  intro n
  induction n with
  | zero => intro fuel page pg st _; simp
  | succ n ih =>
    intro fuel page pg st h
    have h0 := h 0 (Nat.succ_pos n)
    simp only [Nat.cast_zero, add_zero] at h0
    have hlen : ¬ (pg 0).length = 0 := by
      intro hc; exact h0.2 (List.length_eq_zero.mp hc)
    have hrest : ∀ i, i < n →
        scanner.Search query (page + 1 + (i : Int)) pageSize = .ok (pg (i + 1)) ∧ pg (i + 1) ≠ [] := by
      intro i hi
      have := h (i + 1) (Nat.succ_lt_succ hi)
      have e1 : page + ((i + 1 : Nat) : Int) = page + 1 + (i : Int) := by push_cast; ring
      rw [e1] at this
      exact this
    have hfuel : n + 1 + fuel = (n + fuel) + 1 := by omega
    rw [hfuel]
    conv_lhs => unfold paginate
    simp only [h0.1, hlen, if_false]
    rw [ih fuel (page + 1) (fun i => pg (i + 1)) _ hrest]
    have e2 : page + 1 + (n : Int) = page + ((n + 1 : Nat) : Int) := by push_cast; ring
    rw [e2]
    congr 1
    simp only [List.range_succ_eq_map, List.flatMap_cons, List.flatMap_map, Nat.cast_zero, add_zero,
      List.append_assoc, Run.mk.injEq]
    refine ⟨trivial, ?_⟩
    simp only [List.cons_append, List.nil_append, List.cons.injEq, true_and]
    congr 4
    funext i
    have e3 : page + 1 + (i : Int) = page + ((Nat.succ i : Nat) : Int) := by push_cast; ring
    rw [e3]

/-- With at least one page allowed, visiting a scanner starts with a `wait` on
its limiter and a `Search` for page 1. -/
theorem visit_calls_head (target : Target) (maxPage pageSize : Int) (N : Scanner)
    (hmax : 1 ≤ maxPage) :
    ∃ tail, (visit target maxPage pageSize Run.empty (some N)).calls =
      Call.wait N.Name :: Call.search N.Name (buildQuery N.Name target) 1 pageSize :: tail := by
  obtain ⟨f, hf⟩ : ∃ f, maxPage.toNat = f + 1 := ⟨maxPage.toNat - 1, by omega⟩
  simp only [visit, hf]
  unfold paginate
  cases hS : N.Search (buildQuery N.Name target) 1 pageSize with
  | error err => exact ⟨[Call.handleError N.Name err], by simp [Run.empty]⟩
  | ok assets =>
    by_cases hlen : assets.length = 0
    · exact ⟨[], by simp [hlen, Run.empty]⟩
    · simp only [hlen, if_false]
      rw [paginate_acc]
      exact ⟨_, by simp [Run.empty]; rfl⟩

/-- Visiting a scanner whose pages `1..m` succeed with non-empty lists, with
more than `m` pages allowed: the state on entering page `m + 1`. -/
theorem visit_ok_pages (target : Target) (maxPage pageSize : Int) (B : Scanner) (m : Nat)
    (pages : Nat → List Asset) (hm : ((m + 1 : Nat) : Int) ≤ maxPage)
    (hpages : ∀ i : Nat, 1 ≤ i → i < m + 1 →
      B.Search (buildQuery B.Name target) (i : Int) pageSize = .ok (pages i) ∧ pages i ≠ []) :
    visit target maxPage pageSize Run.empty (some B) =
      paginate B (buildQuery B.Name target) pageSize (maxPage.toNat - m) ((m : Int) + 1)
        { results := (List.range m).flatMap (fun i => pages (i + 1)),
          calls := (List.range m).flatMap (fun i =>
            [Call.wait B.Name,
             Call.search B.Name (buildQuery B.Name target) ((i : Int) + 1) pageSize]) } := by
  have hfuel : maxPage.toNat = m + (maxPage.toNat - m) := by omega
  simp only [visit]
  conv_lhs => rw [hfuel]
  rw [paginate_ok_pages B (buildQuery B.Name target) pageSize m (maxPage.toNat - m) 1
    (fun i => pages (i + 1)) Run.empty]
  · have e1 : (1 : Int) + (m : Int) = (m : Int) + 1 := by ring
    rw [e1]
    congr 1
    simp only [Run.empty, List.nil_append, Run.mk.injEq, true_and]
    congr 1
    funext i
    have e2 : (1 : Int) + (i : Int) = (i : Int) + 1 := by ring
    rw [e2]
  · intro i hi
    have := hpages (i + 1) (by omega) (by omega)
    have e3 : (1 : Int) + (i : Int) = ((i + 1 : Nat) : Int) := by push_cast; ring
    rw [e3]
    exact this

/-! ## Pagination and failure policy of `searchSingle` -/

/-- C2: when the page-1 `Search` of backend `B` fails (and `maxPage ≥ 1`), the
assets of `searchSingle` are those of the backends before `B` followed by those
of the backends after `B` (nothing from `B`); the calls made for `B` are exactly
one `wait`, the page-1 `Search` and `handleError` (no page 2); and the backend
registered next, if any, is then queried from page 1. -/
theorem searchSingle_first_page_error (e : SearchEngine) (t : Target) (maxPage pageSize : Int)
    (pre post : List (Option Scanner)) (B : Scanner) (msg : String)
    (hmax : 1 ≤ maxPage)
    (hscan : e.scanners = pre ++ some B :: post)
    (herr : B.Search (buildQuery B.Name t) 1 pageSize = .error msg) :
    (searchSingle e t maxPage pageSize).results =
        (searchSingle { e with scanners := pre } t maxPage pageSize).results ++
        (searchSingle { e with scanners := post } t maxPage pageSize).results ∧
    (searchSingle e t maxPage pageSize).calls =
        (searchSingle { e with scanners := pre } t maxPage pageSize).calls ++
        [Call.wait B.Name, Call.search B.Name (buildQuery B.Name t) 1 pageSize,
         Call.handleError B.Name msg] ++
        (searchSingle { e with scanners := post } t maxPage pageSize).calls ∧
    (∀ (N : Scanner) (rest : List (Option Scanner)), post = some N :: rest →
      ∃ tail, (searchSingle { e with scanners := post } t maxPage pageSize).calls =
        Call.wait N.Name :: Call.search N.Name (buildQuery N.Name t) 1 pageSize :: tail) := by
  obtain ⟨f, hf⟩ : ∃ f, maxPage.toNat = f + 1 := ⟨maxPage.toNat - 1, by omega⟩
  have hv : visit t maxPage pageSize Run.empty (some B) =
      { results := [],
        calls := [Call.wait B.Name, Call.search B.Name (buildQuery B.Name t) 1 pageSize,
                  Call.handleError B.Name msg] } := by
    simp only [visit, hf]
    unfold paginate
    simp [herr, Run.empty]
  have hsplit := searchSingle_split e t maxPage pageSize pre post (some B) hscan
  rw [hv] at hsplit
  refine ⟨by simpa using hsplit.1, hsplit.2, ?_⟩
  intro N rest hpost
  have hs2 := (searchSingle_split { e with scanners := post } t maxPage pageSize [] rest
    (some N) (by simpa using hpost)).2
  obtain ⟨tail, htail⟩ := visit_calls_head t maxPage pageSize N hmax
  rw [hs2, htail]
  exact ⟨_, by simp [searchSingle]; rfl⟩

/-- C2 at a concrete engine: Hunter fails on page 1, FOFA answers one asset;
three pages allowed. -/
theorem searchSingle_first_page_error_witness :
    (searchSingle
        { scanners := [some (scripted "Hunter" [.error "timeout"]),
                       some (scripted "FOFA" [.ok [assetA]])], rateLimits := [] }
        exampleIP 3 10).results =
      (searchSingle { scanners := [], rateLimits := [] } exampleIP 3 10).results ++
      (searchSingle { scanners := [some (scripted "FOFA" [.ok [assetA]])], rateLimits := [] }
        exampleIP 3 10).results ∧
    (searchSingle
        { scanners := [some (scripted "Hunter" [.error "timeout"]),
                       some (scripted "FOFA" [.ok [assetA]])], rateLimits := [] }
        exampleIP 3 10).results = [assetA] :=
  ⟨(searchSingle_first_page_error
      { scanners := [some (scripted "Hunter" [.error "timeout"]),
                     some (scripted "FOFA" [.ok [assetA]])], rateLimits := [] }
      exampleIP 3 10 [] [some (scripted "FOFA" [.ok [assetA]])]
      (scripted "Hunter" [.error "timeout"]) "timeout" (by decide) rfl rfl).1,
   by decide⟩

/-- C3: when pages `1..k-1` of backend `B` succeed with non-empty lists and page
`k ≤ maxPage` succeeds with an empty list, `B` contributes exactly the assets of
pages `1..k-1` in page order, and the calls made for `B` are a `wait` and a
`Search` for each of the pages `1..k` and nothing after page `k`. -/
theorem searchSingle_empty_page_stops (e : SearchEngine) (t : Target) (maxPage pageSize : Int)
    (pre post : List (Option Scanner)) (B : Scanner) (k : Nat) (pages : Nat → List Asset)
    (hscan : e.scanners = pre ++ some B :: post)
    (hk1 : 1 ≤ k) (hk : (k : Int) ≤ maxPage)
    (hpages : ∀ i : Nat, 1 ≤ i → i < k →
      B.Search (buildQuery B.Name t) (i : Int) pageSize = .ok (pages i) ∧ pages i ≠ [])
    (hempty : B.Search (buildQuery B.Name t) (k : Int) pageSize = .ok []) :
    (searchSingle e t maxPage pageSize).results =
        (searchSingle { e with scanners := pre } t maxPage pageSize).results ++
        (List.range (k - 1)).flatMap (fun i => pages (i + 1)) ++
        (searchSingle { e with scanners := post } t maxPage pageSize).results ∧
    (searchSingle e t maxPage pageSize).calls =
        (searchSingle { e with scanners := pre } t maxPage pageSize).calls ++
        (List.range k).flatMap (fun i =>
          [Call.wait B.Name, Call.search B.Name (buildQuery B.Name t) ((i : Int) + 1) pageSize]) ++
        (searchSingle { e with scanners := post } t maxPage pageSize).calls := by
  obtain ⟨m, rfl⟩ : ∃ m, k = m + 1 := ⟨k - 1, by omega⟩
  obtain ⟨f, hf⟩ : ∃ f, maxPage.toNat - m = f + 1 := ⟨maxPage.toNat - m - 1, by omega⟩
  have hcast : ((m : Int) + 1) = ((m + 1 : Nat) : Int) := by push_cast; ring
  have hv := visit_ok_pages t maxPage pageSize B m pages hk hpages
  rw [hf] at hv
  unfold paginate at hv
  rw [hcast] at hv
  simp only [hempty, List.length_nil, if_true] at hv
  have hsplit := searchSingle_split e t maxPage pageSize pre post (some B) hscan
  rw [hv] at hsplit
  refine ⟨by simpa using hsplit.1, ?_⟩
  rw [hsplit.2]
  simp only [List.range_succ, List.flatMap_append, List.flatMap_cons, List.flatMap_nil,
    List.append_nil]
  rw [hcast]

/-- C3 at a concrete engine: FOFA answers two non-empty pages and an empty
third page; five pages allowed. -/
theorem searchSingle_empty_page_stops_witness :
    (searchSingle
        { scanners := [some (scripted "FOFA" [.ok [assetA], .ok [assetB, assetC], .ok []])],
          rateLimits := [] } exampleIP 5 10).results =
      (searchSingle { scanners := [], rateLimits := [] } exampleIP 5 10).results ++
      (List.range (3 - 1)).flatMap
        (fun i => (fun n => if n = 1 then [assetA] else [assetB, assetC]) (i + 1)) ++
      (searchSingle { scanners := [], rateLimits := [] } exampleIP 5 10).results :=
  (searchSingle_empty_page_stops
    { scanners := [some (scripted "FOFA" [.ok [assetA], .ok [assetB, assetC], .ok []])],
      rateLimits := [] } exampleIP 5 10 [] []
    (scripted "FOFA" [.ok [assetA], .ok [assetB, assetC], .ok []]) 3
    (fun n => if n = 1 then [assetA] else [assetB, assetC]) rfl (by decide) (by decide)
    (fun i h1 h3 => by
      have hi : i = 1 ∨ i = 2 := by omega
      rcases hi with rfl | rfl
      · exact ⟨rfl, by decide⟩
      · exact ⟨rfl, by decide⟩)
    rfl).1

/-- C4: when pages `1..k-1` of backend `B` succeed with non-empty lists and page
`k` fails, for `2 ≤ k ≤ maxPage`, `B` contributes exactly the assets of pages
`1..k-1`, the calls made for `B` are a `wait` and a `Search` for each of the
pages `1..k` followed by `handleError` and nothing else, and `searchSingle`
returns no error. -/
theorem searchSingle_later_page_error (e : SearchEngine) (t : Target) (maxPage pageSize : Int)
    (pre post : List (Option Scanner)) (B : Scanner) (k : Nat) (pages : Nat → List Asset)
    (msg : String)
    (hscan : e.scanners = pre ++ some B :: post)
    (hk2 : 2 ≤ k) (hk : (k : Int) ≤ maxPage)
    (hpages : ∀ i : Nat, 1 ≤ i → i < k →
      B.Search (buildQuery B.Name t) (i : Int) pageSize = .ok (pages i) ∧ pages i ≠ [])
    (herr : B.Search (buildQuery B.Name t) (k : Int) pageSize = .error msg) :
    (searchSingle e t maxPage pageSize).results =
        (searchSingle { e with scanners := pre } t maxPage pageSize).results ++
        (List.range (k - 1)).flatMap (fun i => pages (i + 1)) ++
        (searchSingle { e with scanners := post } t maxPage pageSize).results ∧
    (searchSingle e t maxPage pageSize).calls =
        (searchSingle { e with scanners := pre } t maxPage pageSize).calls ++
        ((List.range k).flatMap (fun i =>
          [Call.wait B.Name, Call.search B.Name (buildQuery B.Name t) ((i : Int) + 1) pageSize]) ++
         [Call.handleError B.Name msg]) ++
        (searchSingle { e with scanners := post } t maxPage pageSize).calls ∧
    (searchSingle e t maxPage pageSize).err = none := by
  obtain ⟨m, rfl⟩ : ∃ m, k = m + 1 := ⟨k - 1, by omega⟩
  obtain ⟨f, hf⟩ : ∃ f, maxPage.toNat - m = f + 1 := ⟨maxPage.toNat - m - 1, by omega⟩
  have hcast : ((m : Int) + 1) = ((m + 1 : Nat) : Int) := by push_cast; ring
  have hv := visit_ok_pages t maxPage pageSize B m pages hk hpages
  rw [hf] at hv
  unfold paginate at hv
  rw [hcast] at hv
  simp only [herr] at hv
  have hsplit := searchSingle_split e t maxPage pageSize pre post (some B) hscan
  rw [hv] at hsplit
  refine ⟨by simpa using hsplit.1, ?_, rfl⟩
  rw [hsplit.2]
  simp only [List.range_succ, List.flatMap_append, List.flatMap_cons, List.flatMap_nil,
    List.append_nil, List.append_assoc]
  rw [hcast]

/-- C4 at a concrete engine: FOFA answers two non-empty pages and fails on the
third; five pages allowed; Quake, registered next, answers one asset. -/
theorem searchSingle_later_page_error_witness :
    (searchSingle
        { scanners := [some (scripted "FOFA" [.ok [assetA], .ok [assetB], .error "timeout"]),
                       some (scripted "Quake" [.ok [assetC]])],
          rateLimits := [] } exampleIP 5 10).results =
      (searchSingle { scanners := [], rateLimits := [] } exampleIP 5 10).results ++
      (List.range (3 - 1)).flatMap
        (fun i => (fun n => if n = 1 then [assetA] else [assetB]) (i + 1)) ++
      (searchSingle { scanners := [some (scripted "Quake" [.ok [assetC]])], rateLimits := [] }
        exampleIP 5 10).results ∧
    (searchSingle
        { scanners := [some (scripted "FOFA" [.ok [assetA], .ok [assetB], .error "timeout"]),
                       some (scripted "Quake" [.ok [assetC]])],
          rateLimits := [] } exampleIP 5 10).results = [assetA, assetB, assetC] :=
  ⟨(searchSingle_later_page_error
      { scanners := [some (scripted "FOFA" [.ok [assetA], .ok [assetB], .error "timeout"]),
                     some (scripted "Quake" [.ok [assetC]])],
        rateLimits := [] } exampleIP 5 10 [] [some (scripted "Quake" [.ok [assetC]])]
      (scripted "FOFA" [.ok [assetA], .ok [assetB], .error "timeout"]) 3
      (fun n => if n = 1 then [assetA] else [assetB]) "timeout" rfl (by decide) (by decide)
      (fun i h1 h3 => by
        have hi : i = 1 ∨ i = 2 := by omega
        rcases hi with rfl | rfl
        · exact ⟨rfl, by decide⟩
        · exact ⟨rfl, by decide⟩)
      rfl).1,
   by decide⟩

/-! ## Batch fan-out: `SearchTargets` -/

theorem foldl_task (e : SearchEngine) (maxPage pageSize : Int) :
    ∀ (l : List Target) (st : Batch),
      l.foldl (task e maxPage pageSize) st =
        { results := st.results ++ l.flatMap (fun t => (searchSingle e t maxPage pageSize).results),
          errs := st.errs,
          calls := st.calls ++ l.flatMap (fun t => (searchSingle e t maxPage pageSize).calls) } := by
  intro l
  induction l with
  | nil => intro st; simp
  | cons t rest ih =>
    intro st
    simp only [List.foldl_cons]
    rw [ih]
    simp [task, searchSingle, List.append_assoc]

/-- The batch is the concatenation, in admission order, of the per-target runs,
and its error is always `nil`. -/
theorem SearchTargets_eq (e : SearchEngine) (admitted : List Target) (maxPage pageSize : Int) :
    SearchTargets e admitted maxPage pageSize =
      { results := admitted.flatMap (fun t => (searchSingle e t maxPage pageSize).results),
        err := none,
        calls := admitted.flatMap (fun t => (searchSingle e t maxPage pageSize).calls) } := by
  simp [SearchTargets, foldl_task]

/-- C6: for every order `admitted` in which the per-target tasks pass the
admission gate, the assets returned by `SearchTargets` are a rearrangement of
the concatenation of the `searchSingle` results of the targets, and their number
is the sum of the per-target result lengths. -/
theorem SearchTargets_perm (e : SearchEngine) (targets admitted : List Target)
    (maxPage pageSize : Int) (hperm : admitted.Perm targets) :
    (SearchTargets e admitted maxPage pageSize).results.Perm
        (targets.flatMap (fun t => (searchSingle e t maxPage pageSize).results)) ∧
    (SearchTargets e admitted maxPage pageSize).results.length =
        (targets.map (fun t => (searchSingle e t maxPage pageSize).results.length)).sum := by
  have h1 : (SearchTargets e admitted maxPage pageSize).results.Perm
      (targets.flatMap (fun t => (searchSingle e t maxPage pageSize).results)) := by
    rw [SearchTargets_eq]
    exact List.Perm.flatMap_right _ hperm
  refine ⟨h1, ?_⟩
  rw [h1.length_eq, List.length_flatMap]
  rfl

/-- C6 at a concrete engine, with two targets admitted in reverse order. -/
theorem SearchTargets_perm_witness :
    (SearchTargets
        { scanners := [some (scripted "FOFA" [.ok [assetA, assetB]])], rateLimits := [] }
        [exampleDomain, exampleIP] 2 10).results.length =
      ([exampleIP, exampleDomain].map (fun t =>
        (searchSingle
          { scanners := [some (scripted "FOFA" [.ok [assetA, assetB]])], rateLimits := [] }
          t 2 10).results.length)).sum :=
  (SearchTargets_perm
    { scanners := [some (scripted "FOFA" [.ok [assetA, assetB]])], rateLimits := [] }
    [exampleIP, exampleDomain] [exampleDomain, exampleIP] 2 10 (List.Perm.swap _ _ _)).2

/-- C7: for the single target `93.184.216.34` of type `ip` and `maxPage = 1`,
with two backends of which `A` answers three assets on page 1 and `B` fails on
page 1 (registered in either order), `SearchTargets` returns exactly the three
assets of `A` and a `nil` error. -/
theorem SearchTargets_example (A B : Scanner) (a1 a2 a3 : Asset) (msg : String)
    (pageSize : Int) (limits : List (String × APIRateLimit)) (admitted : List Target)
    (hadm : admitted.Perm [{ Value := "93.184.216.34", Typ := "ip" }])
    (hA : A.Search (buildQuery A.Name { Value := "93.184.216.34", Typ := "ip" }) 1 pageSize =
      .ok [a1, a2, a3])
    (hB : B.Search (buildQuery B.Name { Value := "93.184.216.34", Typ := "ip" }) 1 pageSize =
      .error msg) :
    (SearchTargets { scanners := [some A, some B], rateLimits := limits } admitted 1
        pageSize).results = [a1, a2, a3] ∧
    (SearchTargets { scanners := [some A, some B], rateLimits := limits } admitted 1
        pageSize).err = none ∧
    (SearchTargets { scanners := [some B, some A], rateLimits := limits } admitted 1
        pageSize).results = [a1, a2, a3] ∧
    (SearchTargets { scanners := [some B, some A], rateLimits := limits } admitted 1
        pageSize).err = none := by
  have hadm1 : admitted = [{ Value := "93.184.216.34", Typ := "ip" }] :=
    List.perm_singleton.mp hadm
  subst hadm1
  simp [SearchTargets_eq, searchSingle, visit, paginate, hA, hB]

/-- C7 at a concrete engine: Hunter answers three assets, FOFA fails. -/
theorem SearchTargets_example_witness :
    (SearchTargets
        { scanners := [some (scripted "Hunter" [.ok [assetA, assetB, assetC]]),
                       some (scripted "FOFA" [.error "timeout"])], rateLimits := [] }
        [exampleIP] 1 10).results = [assetA, assetB, assetC] :=
  (SearchTargets_example (scripted "Hunter" [.ok [assetA, assetB, assetC]])
    (scripted "FOFA" [.error "timeout"]) assetA assetB assetC "timeout" 10 []
    [exampleIP] (List.Perm.refl _) rfl rfl).1

/-! ## Rate limiter: back-off arithmetic -/

theorem wrap64_eq (x : Int) (hlo : -2 ^ 63 ≤ x) (hhi : x < 2 ^ 63) : wrap64 x = x := by
  unfold wrap64
  omega

set_option maxRecDepth 100000 in
/-- C8, failing run: the limiter that `NewSearchEngine` registers for a backend
named `"FOFA"` starts at the base interval of 2 s; after 34 calls of
`handleError` with an error whose message is `429` (jitter 0 each time) the
product `(1 << 34) * time.Second` has wrapped and the interval is negative,
hence below the base interval. -/
theorem handleError_interval_wraps :
    ∃ e r, NewSearchEngine [some (scripted "FOFA" [])] 0 = some e ∧
      mapGet e.rateLimits "FOFA" = some r ∧
      r.interval = DefaultInterval ∧
      (r.run 0 (List.replicate 33 (0, LimiterOp.handleError (some "429") 0))).1.interval
        = MaxRetryWait ∧
      (r.run 0 (List.replicate 34 (0, LimiterOp.handleError (some "429") 0))).1.interval
        = -1266874889709551616 ∧
      (r.run 0 (List.replicate 34 (0, LimiterOp.handleError (some "429") 0))).1.interval
        < DefaultInterval :=
  ⟨{ scanners := [some (scripted "FOFA" [])],
     rateLimits := [("FOFA", newAPIRateLimit DefaultInterval 0)] },
   newAPIRateLimit DefaultInterval 0, rfl, rfl, rfl, by decide, by decide, by decide⟩

/-- Back-off step without overflow: for a retry count `n ≤ 32` a classified
error sets the retry count to `n + 1` and the interval to
`min(MaxRetryWait, 2^(n+1) s + jitter ms)`, and leaves `lastRequest` alone. -/
theorem handleError_backoff (r : APIRateLimit) (err : Option String) (jitter : Fin 1000)
    (now : Int) (n : Nat) (hn : r.retryCount = (n : Int)) (hn32 : n ≤ 32)
    (hc : (isRateLimitError err || isAPIError err) = true) :
    (r.handleError err jitter now).1 =
      { r with retryCount := (n : Int) + 1,
               interval := min MaxRetryWait
                 (2 ^ (n + 1) * Second + (jitter.val : Int) * Millisecond) } := by
  have hp : (2 : Int) ^ (n + 1) ≤ 2 ^ 33 := pow_le_pow_right₀ (by norm_num) (by omega)
  have hp0 : (0 : Int) < 2 ^ (n + 1) := by positivity
  have hj : (jitter.val : Int) < 1000 := by exact_mod_cast jitter.isLt
  have hj0 : (0 : Int) ≤ (jitter.val : Int) := Int.natCast_nonneg _
  have hrc : wrap64 (r.retryCount + 1) = (n : Int) + 1 := by
    rw [hn]; apply wrap64_eq <;> omega
  have hu : toUint ((n : Int) + 1) = n + 1 := by unfold toUint; omega
  generalize hP : (2 : Int) ^ (n + 1) = P at hp hp0
  norm_num at hp
  have hs : shl1 (n + 1) = P := by
    unfold shl1
    rw [if_pos (by omega)]
    have : ((2 : Int) ^ (n + 1)) = P := hP
    rw [this]
    apply wrap64_eq <;> omega
  have hb : wrap64 (P * Second) = P * Second := by
    unfold Second; apply wrap64_eq <;> omega
  have hjit : wrap64 ((jitter.val : Int) * Millisecond) = (jitter.val : Int) * Millisecond := by
    unfold Millisecond; apply wrap64_eq <;> omega
  have hsum : wrap64 (P * Second + (jitter.val : Int) * Millisecond) =
      P * Second + (jitter.val : Int) * Millisecond := by
    unfold Second Millisecond; apply wrap64_eq <;> omega
  unfold APIRateLimit.handleError
  rw [if_pos hc]
  show ({ r with retryCount := wrap64 (r.retryCount + 1),
                 interval :=
                   if wrap64 (wrap64 (shl1 (toUint (wrap64 (r.retryCount + 1))) * Second) +
                        wrap64 ((jitter.val : Int) * Millisecond)) > MaxRetryWait
                   then MaxRetryWait
                   else wrap64 (wrap64 (shl1 (toUint (wrap64 (r.retryCount + 1))) * Second) +
                        wrap64 ((jitter.val : Int) * Millisecond)) } : APIRateLimit) = _
  rw [hrc, hu, hs, hb, hjit, hsum]
  have hI : (if P * Second + (jitter.val : Int) * Millisecond > MaxRetryWait then MaxRetryWait
      else P * Second + (jitter.val : Int) * Millisecond) =
      min MaxRetryWait (P * Second + (jitter.val : Int) * Millisecond) := by
    rw [min_def]
    split_ifs <;> omega
  rw [hI]

/-! ## Rate limiter: states reached from a fresh limiter -/

theorem registerLimits_fresh (now : Int) :
    ∀ (l : List (Option Scanner)) (m m' : List (String × APIRateLimit)),
      (∀ kv ∈ m, kv.2.interval = DefaultInterval ∧ kv.2.retryCount = 0) →
      registerLimits now l m = some m' →
      ∀ kv ∈ m', kv.2.interval = DefaultInterval ∧ kv.2.retryCount = 0 := by
  intro l
  induction l with
  | nil =>
    intro m m' hm h
    simp only [registerLimits, Option.some.injEq] at h
    subst h
    exact hm
  | cons sc rest ih =>
    intro m m' hm h
    cases sc with
    | none => simp [registerLimits] at h
    | some scanner =>
      simp only [registerLimits] at h
      refine ih _ m' ?_ h
      intro kv hkv
      simp only [mapSet, List.mem_cons, List.mem_filter] at hkv
      rcases hkv with rfl | ⟨hmem, _⟩
      · refine ⟨?_, rfl⟩
        simp only [newAPIRateLimit]
        split_ifs <;> rfl
      · exact hm kv hmem

/-- Every limiter of an engine built by `NewSearchEngine` starts at the base
interval of 2 s with retry count 0. -/
theorem NewSearchEngine_fresh (scanners : List (Option Scanner)) (now : Int) (e : SearchEngine)
    (name : String) (r : APIRateLimit)
    (hnew : NewSearchEngine scanners now = some e) (hget : mapGet e.rateLimits name = some r) :
    r.interval = DefaultInterval ∧ r.retryCount = 0 := by
  simp only [NewSearchEngine, Option.map_eq_some'] at hnew
  obtain ⟨m, hm, rfl⟩ := hnew
  simp only [mapGet, Option.map_eq_some'] at hget
  obtain ⟨kv, hfind, rfl⟩ := hget
  exact registerLimits_fresh now scanners [] m (by simp) hm kv (List.mem_of_find?_eq_some hfind)

theorem run_snoc (r : APIRateLimit) (now : Int) (ops : List (Nat × LimiterOp))
    (op : Nat × LimiterOp) :
    r.run now (ops ++ [op]) =
      APIRateLimit.apply ((r.run now ops).1, (r.run now ops).2 + (op.1 : Int)) op.2 := by
  simp [APIRateLimit.run, List.foldl_append]

theorem errorCalls_snoc (ops : List (Nat × LimiterOp)) (op : Nat × LimiterOp) :
    errorCalls (ops ++ [op]) = errorCalls ops + (if op.2 = LimiterOp.wait then 0 else 1) := by
  simp only [errorCalls, List.filter_append, List.length_append]
  by_cases h : op.2 = LimiterOp.wait <;> simp [List.filter_cons, h]

/-- Shape of the states reached from a fresh limiter by a sequence of calls with
at most 33 `handleError` calls: the retry count `n` is at most the number of
`handleError` calls; the interval is the base interval while `n = 0`, and
`min(MaxRetryWait, 2^n s + j ms)` for some jitter `j` once `n ≥ 1`. -/
theorem run_shape (r0 : APIRateLimit) (h0 : r0.interval = DefaultInterval ∧ r0.retryCount = 0)
    (now : Int) :
    ∀ (ops : List (Nat × LimiterOp)), errorCalls ops ≤ 33 →
      ∃ n : Nat, (r0.run now ops).1.retryCount = (n : Int) ∧ n ≤ errorCalls ops ∧
        (n = 0 → (r0.run now ops).1.interval = DefaultInterval) ∧
        (1 ≤ n → ∃ j : Fin 1000, (r0.run now ops).1.interval =
          min MaxRetryWait (2 ^ n * Second + (j.val : Int) * Millisecond)) := by
  intro ops
  induction ops using List.reverseRecOn with
  | nil =>
    intro _
    exact ⟨0, by simp [APIRateLimit.run, h0.2], le_refl _, fun _ => by simp [APIRateLimit.run, h0.1],
      fun h => absurd h (by decide)⟩
  | append_singleton ops op ih =>
    intro hcount
    rw [errorCalls_snoc] at hcount
    obtain ⟨n, hn, hle, hz, hpos⟩ := ih (by omega)
    rw [run_snoc, errorCalls_snoc]
    obtain ⟨idle, call⟩ := op
    cases call with
    | wait =>
      refine ⟨n, ?_, by simpa using hle, ?_, ?_⟩
      · simpa [APIRateLimit.apply, APIRateLimit.wait] using hn
      · intro hn0; simpa [APIRateLimit.apply, APIRateLimit.wait] using hz hn0
      · intro hn1; simpa [APIRateLimit.apply, APIRateLimit.wait] using hpos hn1
    | handleError err jitter =>
      simp only [LimiterOp.handleError.injEq, reduceCtorEq, if_false] at hcount ⊢
      simp only [APIRateLimit.apply]
      by_cases hc : (isRateLimitError err || isAPIError err) = true
      · have hstep := handleError_backoff (r0.run now ops).1 err jitter
          ((r0.run now ops).2 + (idle : Int)) n hn (by omega) hc
        rw [hstep]
        refine ⟨n + 1, by simp, by omega, fun h => absurd h (by omega), fun _ => ⟨jitter, rfl⟩⟩
      · have hsame : ((r0.run now ops).1.handleError err jitter
            ((r0.run now ops).2 + (idle : Int))).1 = (r0.run now ops).1 := by
          unfold APIRateLimit.handleError
          rw [if_neg hc]
        rw [hsame]
        exact ⟨n, hn, by omega, hz, hpos⟩

/-! ## Rate limiter: effect of `handleError` on the interval -/

/-- C9, as stated, fails: on a fresh limiter (interval 2 s, retry count 0) a
rate-limit error with jitter 0 leaves the interval at 2 s; on a limiter already
at `MaxRetryWait` the interval stays at `MaxRetryWait`; a state with a long
interval and retry count 0 gets a shorter interval; and at retry count 33 the
interval drops from `MaxRetryWait` to a negative value. -/
theorem handleError_interval_not_strict :
    isRateLimitError (some "rate limit") = true ∧
    ((newAPIRateLimit DefaultInterval 0).handleError (some "rate limit") 0 0).1.interval =
      (newAPIRateLimit DefaultInterval 0).interval ∧
    (({ interval := MaxRetryWait, lastRequest := 0, retryCount := 6 } :
        APIRateLimit).handleError (some "rate limit") 500 0).1.interval = MaxRetryWait ∧
    (({ interval := 50 * Second, lastRequest := 0, retryCount := 0 } :
        APIRateLimit).handleError (some "rate limit") 500 0).1.interval < 50 * Second ∧
    (({ interval := MaxRetryWait, lastRequest := 0, retryCount := 33 } :
        APIRateLimit).handleError (some "rate limit") 500 0).1.interval < 0 := by
  decide

/-- C9, amended: for a limiter state reached from a limiter of an engine built
by `NewSearchEngine` through calls of `wait` and at most 32 calls of
`handleError`, and a rate-limit-classified error, the interval after
`handleError` is at least the interval before and at most `MaxRetryWait`; it is
strictly greater when the interval before is below `MaxRetryWait` and either the
retry count is at least 1 or the jitter drawn is not 0. -/
theorem handleError_interval_grows (scanners : List (Option Scanner)) (now0 : Int)
    (e : SearchEngine) (name : String) (r0 : APIRateLimit)
    (hnew : NewSearchEngine scanners now0 = some e)
    (hget : mapGet e.rateLimits name = some r0)
    (now : Int) (ops : List (Nat × LimiterOp)) (hcount : errorCalls ops ≤ 32)
    (err : Option String) (hrl : isRateLimitError err = true)
    (jitter : Fin 1000) (now1 : Int) :
    (r0.run now ops).1.interval ≤
        ((r0.run now ops).1.handleError err jitter now1).1.interval ∧
    ((r0.run now ops).1.handleError err jitter now1).1.interval ≤ MaxRetryWait ∧
    ((r0.run now ops).1.interval < MaxRetryWait →
      (1 ≤ (r0.run now ops).1.retryCount ∨ 0 < jitter.val) →
      (r0.run now ops).1.interval <
        ((r0.run now ops).1.handleError err jitter now1).1.interval) := by
  have hfresh := NewSearchEngine_fresh scanners now0 e name r0 hnew hget
  obtain ⟨n, hn, hle, hz, hpos⟩ := run_shape r0 hfresh now ops (by omega)
  have hc : (isRateLimitError err || isAPIError err) = true := by simp [hrl]
  rw [handleError_backoff (r0.run now ops).1 err jitter now1 n hn (by omega) hc]
  have hj : (jitter.val : Int) < 1000 := by exact_mod_cast jitter.isLt
  have hj0 : (0 : Int) ≤ (jitter.val : Int) := Int.natCast_nonneg _
  show (r0.run now ops).1.interval ≤
        min MaxRetryWait (2 ^ (n + 1) * Second + (jitter.val : Int) * Millisecond) ∧
      min MaxRetryWait (2 ^ (n + 1) * Second + (jitter.val : Int) * Millisecond) ≤ MaxRetryWait ∧
      ((r0.run now ops).1.interval < MaxRetryWait →
        (1 ≤ (r0.run now ops).1.retryCount ∨ 0 < jitter.val) →
        (r0.run now ops).1.interval <
          min MaxRetryWait (2 ^ (n + 1) * Second + (jitter.val : Int) * Millisecond))
  rw [hn]
  rcases Nat.eq_zero_or_pos n with hn0 | hn1
  · subst hn0
    rw [hz rfl]
    simp only [DefaultInterval, MaxRetryWait, Second, Millisecond]
    refine ⟨by omega, by omega, ?_⟩
    intro _ hor
    have hjpos : (0 : Int) < (jitter.val : Int) := by
      rcases hor with h | h
      · exact absurd h (by decide)
      · exact_mod_cast h
    omega
  · obtain ⟨j0, hj0eq⟩ := hpos hn1
    rw [hj0eq]
    have hk : (j0.val : Int) < 1000 := by exact_mod_cast j0.isLt
    have hk0 : (0 : Int) ≤ (j0.val : Int) := Int.natCast_nonneg _
    have hP1 : (1 : Int) ≤ 2 ^ n := one_le_pow₀ (by norm_num)
    have hsucc : (2 : Int) ^ (n + 1) = 2 * 2 ^ n := by ring
    rw [hsucc]
    generalize (2 : Int) ^ n = P at hP1
    simp only [MaxRetryWait, Second, Millisecond]
    refine ⟨by omega, by omega, ?_⟩
    intro _ _
    omega

set_option maxRecDepth 100000 in
/-- C9 amended, at a concrete run: the limiter registered for `"FOFA"`, after a
`wait` and one classified error, strictly grows on the next rate-limit error. -/
theorem handleError_interval_grows_witness :
    ((newAPIRateLimit DefaultInterval 0).run 0
        [(0, LimiterOp.wait), (5, LimiterOp.handleError (some "429") 5)]).1.interval <
      (((newAPIRateLimit DefaultInterval 0).run 0
        [(0, LimiterOp.wait), (5, LimiterOp.handleError (some "429") 5)]).1.handleError
          (some "rate limit") 7 10).1.interval :=
  (handleError_interval_grows [some (scripted "FOFA" [])] 0
    { scanners := [some (scripted "FOFA" [])],
      rateLimits := [("FOFA", newAPIRateLimit DefaultInterval 0)] }
    "FOFA" (newAPIRateLimit DefaultInterval 0) rfl rfl 0
    [(0, LimiterOp.wait), (5, LimiterOp.handleError (some "429") 5)] (by decide)
    (some "rate limit") (by decide) 7 10).2.2 (by decide) (Or.inl (by decide))

/-- C10: an error that neither classifier recognises leaves the limiter as it
was: `interval`, `lastRequest` and `retryCount` are unchanged (and the call does
not sleep). This covers the `nil` error and every error whose message contains
none of the eight marker substrings. -/
theorem handleError_unrelated (r : APIRateLimit) (err : Option String) (jitter : Fin 1000)
    (now : Int)
    (hrl : isRateLimitError err = false) (hapi : isAPIError err = false) :
    r.handleError err jitter now = (r, now) ∧
    (r.handleError err jitter now).1.interval = r.interval ∧
    (r.handleError err jitter now).1.lastRequest = r.lastRequest ∧
    (r.handleError err jitter now).1.retryCount = r.retryCount ∧
    r.handleError none jitter now = (r, now) ∧
    (∀ msg : String,
      (∀ marker ∈ ["rate limit", "too many requests", "请求太多", "请求过于频繁", "429",
          "API错误", "cannot unmarshal", "稍后再试"], stringsContains msg marker = false) →
      r.handleError (some msg) jitter now = (r, now)) := by
  have hsame : r.handleError err jitter now = (r, now) := by
    unfold APIRateLimit.handleError
    rw [if_neg (by simp [hrl, hapi])]
  refine ⟨hsame, by rw [hsame], by rw [hsame], by rw [hsame], ?_, ?_⟩
  · unfold APIRateLimit.handleError
    rw [if_neg (by simp [isRateLimitError, isAPIError])]
  · intro msg hmarkers
    simp only [List.mem_cons, List.mem_singleton, forall_eq_or_imp, forall_eq] at hmarkers
    unfold APIRateLimit.handleError
    rw [if_neg]
    simp only [isRateLimitError, isAPIError, Bool.or_eq_true, not_or, Bool.not_eq_true]
    simp only [List.not_mem_nil, false_imp_iff, implies_true, and_true] at hmarkers
    obtain ⟨h1, h2, h3, h4, h5, h6, h7, h8⟩ := hmarkers
    exact ⟨⟨⟨⟨⟨h1, h2⟩, h3⟩, h4⟩, h5⟩, ⟨h6, h7⟩, h8⟩

/-- C10 at a concrete limiter and a transport error. -/
theorem handleError_unrelated_witness :
    (({ interval := 7000000000, lastRequest := 12, retryCount := 3 } :
        APIRateLimit).handleError (some "dial tcp: i/o timeout") 250 40) =
      ({ interval := 7000000000, lastRequest := 12, retryCount := 3 }, 40) :=
  (handleError_unrelated { interval := 7000000000, lastRequest := 12, retryCount := 3 }
    (some "dial tcp: i/o timeout") 250 40 (by decide) (by decide)).1

/-! ## Rate limiter: which errors back off -/

/-- C11, as stated, fails: a read error (`unexpected EOF`) and a parse error
(`unexpected end of JSON input`) returned by a backend's `Search` are not
classified, and `handleError` leaves the retry counter and the interval as they
were. -/
theorem handleError_ignores_transport_error :
    (({ interval := DefaultInterval, lastRequest := 0, retryCount := 0 } :
        APIRateLimit).handleError (some "unexpected EOF") 0 0).1 =
      { interval := DefaultInterval, lastRequest := 0, retryCount := 0 } ∧
    (({ interval := DefaultInterval, lastRequest := 0, retryCount := 0 } :
        APIRateLimit).handleError (some "unexpected end of JSON input") 0 0).1 =
      { interval := DefaultInterval, lastRequest := 0, retryCount := 0 } := by
  decide

/-- C11, amended: an error returned by a backend's `Search` makes `handleError`
back off when its message contains one of the eight marker substrings: the
retry counter `n` (here `n ≤ 32`) becomes `n + 1` and the interval is recomputed
from it as `min(MaxRetryWait, 2^(n+1) s + jitter ms)`. An error whose message
contains none of the markers leaves the limiter unchanged. -/
theorem handleError_backs_off_on_marker (r : APIRateLimit) (msg : String) (jitter : Fin 1000)
    (now : Int) (n : Nat) (hn : r.retryCount = (n : Int)) (hn32 : n ≤ 32) :
    ((∃ marker ∈ ["rate limit", "too many requests", "请求太多", "请求过于频繁", "429",
          "API错误", "cannot unmarshal", "稍后再试"], stringsContains msg marker = true) →
      (r.handleError (some msg) jitter now).1 =
        { r with retryCount := (n : Int) + 1,
                 interval := min MaxRetryWait
                   (2 ^ (n + 1) * Second + (jitter.val : Int) * Millisecond) }) ∧
    ((∀ marker ∈ ["rate limit", "too many requests", "请求太多", "请求过于频繁", "429",
          "API错误", "cannot unmarshal", "稍后再试"], stringsContains msg marker = false) →
      (r.handleError (some msg) jitter now).1 = r) := by
  constructor
  · intro hex
    apply handleError_backoff r (some msg) jitter now n hn hn32
    simp only [List.mem_cons, List.mem_singleton, List.not_mem_nil, or_false,
      exists_eq_or_imp, exists_eq_left] at hex
    simp only [isRateLimitError, isAPIError, Bool.or_eq_true]
    tauto
  · intro hall
    simp only [List.mem_cons, List.mem_singleton, forall_eq_or_imp, forall_eq,
      List.not_mem_nil, false_imp_iff, implies_true, and_true] at hall
    obtain ⟨h1, h2, h3, h4, h5, h6, h7, h8⟩ := hall
    unfold APIRateLimit.handleError
    rw [if_neg]
    simp only [isRateLimitError, isAPIError, Bool.or_eq_true, not_or, Bool.not_eq_true]
    exact ⟨⟨⟨⟨⟨h1, h2⟩, h3⟩, h4⟩, h5⟩, ⟨h6, h7⟩, h8⟩

/-- C11 amended, at a concrete limiter: an API error reported by FOFA backs off. -/
theorem handleError_backs_off_on_marker_witness :
    (({ interval := DefaultInterval, lastRequest := 7, retryCount := ((2 : Nat) : Int) } :
        APIRateLimit).handleError (some "API错误: [820031] F点余额不足") 250 9).1 =
      { interval := min MaxRetryWait (2 ^ (2 + 1) * Second + ((250 : Fin 1000).val : Int) * Millisecond),
        lastRequest := 7, retryCount := ((2 : Nat) : Int) + 1 } :=
  (handleError_backs_off_on_marker
    { interval := DefaultInterval, lastRequest := 7, retryCount := ((2 : Nat) : Int) }
    "API错误: [820031] F点余额不足" 250 9 2 rfl (by decide)).1
    ⟨"API错误", by decide, by decide⟩

/-! ## Rate limiter: spacing enforced by `wait` -/

/-- C12: a `wait()` entered at time `t` on a limiter with last-request time `L`
and interval `I` returns at time `max(t, L + I)`, records that time as the new
last-request time and changes nothing else; hence the time recorded by the next
`wait()` (entered at any time `t2`) is at least `I` after it. -/
theorem wait_spacing (r : APIRateLimit) (t t2 : Int) :
    (r.wait t).2 = max t (r.lastRequest + r.interval) ∧
    (r.wait t).1.lastRequest = (r.wait t).2 ∧
    (r.wait t).1.interval = r.interval ∧
    (r.wait t).1.retryCount = r.retryCount ∧
    r.interval ≤ ((r.wait t).1.wait t2).1.lastRequest - (r.wait t).1.lastRequest := by
  simp only [APIRateLimit.wait]
  refine ⟨?_, trivial, trivial, trivial, ?_⟩
  · split_ifs <;> omega
  · split_ifs <;> omega

/-! ## Rate limiter: the back-off formula at large retry counts -/

/-- C19, failing inputs: at retry count 33 a classified error sets the retry
count to 34 and the interval to a negative value, where the formula
`min(MaxRetryWait, 2^34 s + jitter)` gives `MaxRetryWait`; at retry count 63 the
shift count 64 clears the back-off and the interval is the jitter alone. -/
theorem handleError_formula_wraps :
    (({ interval := MaxRetryWait, lastRequest := 0, retryCount := 33 } :
        APIRateLimit).handleError (some "429") 0 0).1 =
      { interval := -1266874889709551616, lastRequest := 0, retryCount := 34 } ∧
    min MaxRetryWait (2 ^ (33 + 1) * Second + ((0 : Fin 1000).val : Int) * Millisecond) =
      MaxRetryWait ∧
    (({ interval := MaxRetryWait, lastRequest := 0, retryCount := 63 } :
        APIRateLimit).handleError (some "429") 999 0).1 =
      { interval := 999 * Millisecond, lastRequest := 0, retryCount := 64 } := by
  decide

/-! ## Isolation of backends in `searchSingle` -/

/-- C20: the assets (and the calls) of `searchSingle` over the backend list
`X ++ Y` are those over `X` followed by those over `Y`; what the backends of `Y`
contribute does not depend on `X`. -/
theorem searchSingle_append (X Y : List (Option Scanner)) (limits : List (String × APIRateLimit))
    (t : Target) (maxPage pageSize : Int) :
    (searchSingle { scanners := X ++ Y, rateLimits := limits } t maxPage pageSize).results =
        (searchSingle { scanners := X, rateLimits := limits } t maxPage pageSize).results ++
        (searchSingle { scanners := Y, rateLimits := limits } t maxPage pageSize).results ∧
    (searchSingle { scanners := X ++ Y, rateLimits := limits } t maxPage pageSize).calls =
        (searchSingle { scanners := X, rateLimits := limits } t maxPage pageSize).calls ++
        (searchSingle { scanners := Y, rateLimits := limits } t maxPage pageSize).calls := by
  simp only [searchSingle, List.foldl_append]
  rw [foldl_visit_acc t maxPage pageSize Y]
  exact ⟨rfl, rfl⟩

/-! ## Query translation -/

theorem append_ne_empty_left (a b : String) (ha : a ≠ "") : a ++ b ≠ "" := by
  intro h
  apply ha
  have hd : (a ++ b).data = [] := by rw [h]
  rw [String.data_append] at hd
  have ha' : a.data = [] := (List.append_eq_nil.mp hd).1
  exact String.ext ha'

/-- C15: `buildQuery` on a target with value `V`: for `"Hunter"`, `ip="V"` when
the type is `"ip"` and `domain.suffix="V"` otherwise; for `"FOFA"`, `ip="V"` or
`domain="V"`; for `"Quake"`, `ip:V` or `domain:V`; for every other backend name
the empty string; and the query is empty exactly when the name is none of the
three. -/
theorem buildQuery_spec (name V ty : String) :
    buildQuery "Hunter" { Value := V, Typ := "ip" } = "ip=\"" ++ V ++ "\"" ∧
    (ty ≠ "ip" → buildQuery "Hunter" { Value := V, Typ := ty } = "domain.suffix=\"" ++ V ++ "\"") ∧
    buildQuery "FOFA" { Value := V, Typ := "ip" } = "ip=\"" ++ V ++ "\"" ∧
    (ty ≠ "ip" → buildQuery "FOFA" { Value := V, Typ := ty } = "domain=\"" ++ V ++ "\"") ∧
    buildQuery "Quake" { Value := V, Typ := "ip" } = "ip:" ++ V ∧
    (ty ≠ "ip" → buildQuery "Quake" { Value := V, Typ := ty } = "domain:" ++ V) ∧
    (name ≠ "Hunter" → name ≠ "FOFA" → name ≠ "Quake" →
      buildQuery name { Value := V, Typ := ty } = "") ∧
    (buildQuery name { Value := V, Typ := ty } = "" ↔
      (name ≠ "Hunter" ∧ name ≠ "FOFA" ∧ name ≠ "Quake")) := by
  refine ⟨by simp [buildQuery], fun h => by simp [buildQuery, h], by simp [buildQuery],
    fun h => by simp [buildQuery, h], by simp [buildQuery], fun h => by simp [buildQuery, h],
    fun h1 h2 h3 => by simp [buildQuery, h1, h2, h3], ?_⟩
  constructor
  · intro hq
    refine ⟨?_, ?_, ?_⟩
    · rintro rfl
      revert hq
      simp only [buildQuery, if_true]
      split_ifs
      · exact append_ne_empty_left _ _ (append_ne_empty_left _ _ (by decide))
      · exact append_ne_empty_left _ _ (append_ne_empty_left _ _ (by decide))
    · rintro rfl
      revert hq
      simp only [buildQuery, if_true, show ¬ ("FOFA" = "Hunter") by decide, if_false]
      split_ifs
      · exact append_ne_empty_left _ _ (append_ne_empty_left _ _ (by decide))
      · exact append_ne_empty_left _ _ (append_ne_empty_left _ _ (by decide))
    · rintro rfl
      revert hq
      simp only [buildQuery, if_true, show ¬ ("Quake" = "Hunter") by decide,
        show ¬ ("Quake" = "FOFA") by decide, if_false]
      split_ifs
      · exact append_ne_empty_left _ _ (by decide)
      · exact append_ne_empty_left _ _ (by decide)
  · rintro ⟨h1, h2, h3⟩
    simp [buildQuery, h1, h2, h3]

/-- C15 at concrete inputs: a domain target for Hunter, and an unknown name. -/
theorem buildQuery_spec_witness :
    buildQuery "Hunter" { Value := "example.com", Typ := "domain" } =
      "domain.suffix=\"" ++ "example.com" ++ "\"" ∧
    buildQuery "Zone" { Value := "example.com", Typ := "domain" } = "" :=
  ⟨(buildQuery_spec "Zone" "example.com" "domain").2.1 (by decide),
   (buildQuery_spec "Zone" "example.com" "domain").2.2.2.2.2.2.1
     (by decide) (by decide) (by decide)⟩

/-- C16: the company query of the zone package is the six clauses `F=="C"` for
`F` = `company`, `title`, `banner`, `html_banner`, `component`,
`ssl_info.detail`, in this order, joined by `||`, the value in double quotes. -/
theorem zone_buildQuery_spec (C : String) :
    zone.buildQuery C =
      "company==\"" ++ C ++ "\"" ++ "||" ++ ("title==\"" ++ C ++ "\"") ++ "||" ++
      ("banner==\"" ++ C ++ "\"") ++ "||" ++ ("html_banner==\"" ++ C ++ "\"") ++ "||" ++
      ("component==\"" ++ C ++ "\"") ++ "||" ++ ("ssl_info.detail==\"" ++ C ++ "\"") ∧
    zone.buildQuery C =
      "||".intercalate
        (["company", "title", "banner", "html_banner", "component", "ssl_info.detail"].map
          (fun F => F ++ "==\"" ++ C ++ "\"")) := by
  constructor
  · simp [zone.buildQuery, String.intercalate, String.intercalate.go]
  · simp [zone.buildQuery]

/-! ## Start-up validation -/

/-- C17, failing input: with only the Hunter key configured (every other field
at its placeholder, `max_page` 5, `page_size` 100) `validateConfig` of `main.go`
accepts the configuration for module `cse`, as its at-least-one-key rule says,
but `validateConfig` of package `config`, which `Load` runs first, rejects it. -/
theorem validateConfig_rejects_single_key :
    cmd.validateConfig { config.defaultConfig with HunterAPIKey := "hk-123" } "cse" = none ∧
    config.validateConfig { config.defaultConfig with HunterAPIKey := "hk-123" } =
      some "请修改配置文件中的默认API密钥" := by
  decide

/-! ## Output file name -/

theorem extScan_suffix : ∀ (rev acc : List Char),
    cmd.extScan rev acc = [] ∨ ∃ pre, rev.reverse ++ acc = pre ++ cmd.extScan rev acc := by
  intro rev
  induction rev with
  | nil => intro acc; exact Or.inl rfl
  | cons c rest ih =>
    intro acc
    unfold cmd.extScan
    by_cases hs : c = '/'
    · exact Or.inl (by simp [hs])
    · by_cases hd : c = '.'
      · exact Or.inr ⟨rest.reverse, by simp [hd]⟩
      · simp only [hs, hd, if_false]
        rcases ih (c :: acc) with h | ⟨pre, h⟩
        · exact Or.inl h
        · exact Or.inr ⟨pre, by simpa using h⟩

theorem extScan_xlsx (stem : List Char) :
    cmd.extScan ((stem ++ ".xlsx".data).reverse) [] = ".xlsx".data := by
  have hrev : (stem ++ ".xlsx".data).reverse = 'x' :: 's' :: 'l' :: 'x' :: '.' :: stem.reverse := by
    simp
  rw [hrev]
  simp [cmd.extScan]

theorem contains_dot_xlsx : ∀ (stem : List Char),
    (stem ++ ".xlsx".data).tails.any (fun t => ".".data.isPrefixOf t) = true := by
  intro stem
  induction stem with
  | nil => decide
  | cons a rest ih =>
    have ht : (a :: rest ++ ".xlsx".data).tails =
        (a :: rest ++ ".xlsx".data) :: (rest ++ ".xlsx".data).tails := rfl
    rw [ht, List.any_cons, ih, Bool.or_true]

/-- A name that already ends in `.xlsx` is returned as it is. -/
theorem ensureXLSXExtension_fixed (stem : String) :
    cmd.ensureXLSXExtension (stem ++ ".xlsx") = stem ++ ".xlsx" := by
  have hc : stringsContains (stem ++ ".xlsx") "." = true := by
    simp only [stringsContains, String.data_append]
    exact contains_dot_xlsx stem.data
  have hext : cmd.filepathExt (stem ++ ".xlsx") = ".xlsx" := by
    simp only [cmd.filepathExt, String.data_append]
    rw [extScan_xlsx]
  simp only [cmd.ensureXLSXExtension, hc, hext]
  simp

/-- C18: for every file name `f`, `ensureXLSXExtension f` is some stem followed
by `.xlsx` (so `strings.HasSuffix` holds of it), and applying the function to
its own result changes nothing. -/
theorem ensureXLSXExtension_spec (f : String) :
    (∃ stem, cmd.ensureXLSXExtension f = stem ++ ".xlsx") ∧
    cmd.stringsHasSuffix (cmd.ensureXLSXExtension f) ".xlsx" = true ∧
    cmd.ensureXLSXExtension (cmd.ensureXLSXExtension f) = cmd.ensureXLSXExtension f := by
  have hstem : ∃ stem, cmd.ensureXLSXExtension f = stem ++ ".xlsx" := by
    unfold cmd.ensureXLSXExtension
    by_cases hc : stringsContains f "." = true
    · simp only [hc, Bool.not_true, Bool.false_eq_true, if_false]
      by_cases hext : cmd.filepathExt f = ".xlsx"
      · simp only [hext, ne_eq, not_true_eq_false, if_false]
        rcases extScan_suffix f.data.reverse [] with h | ⟨pre, h⟩
        · have hd : (cmd.filepathExt f).data = [] := h
          rw [hext] at hd
          exact absurd hd (by decide)
        · refine ⟨⟨pre⟩, ?_⟩
          apply String.ext
          have hd : (cmd.filepathExt f).data = cmd.extScan f.data.reverse [] := rfl
          rw [hext] at hd
          rw [String.data_append, hd]
          simpa using h
      · refine ⟨cmd.stringsTrimSuffix f (cmd.filepathExt f), ?_⟩
        simp only [ne_eq, hext, not_false_eq_true, if_true]
    · exact ⟨f, by simp [hc]⟩
  obtain ⟨stem, hs⟩ := hstem
  refine ⟨⟨stem, hs⟩, ?_, ?_⟩
  · rw [hs]
    simp [cmd.stringsHasSuffix, String.data_append]
  · rw [hs, ensureXLSXExtension_fixed]

/-! ## Maps -/

theorem find_filter_ne {α : Type} (k k' : String) (hk : k ≠ k') :
    ∀ m : List (String × α),
      (m.filter (fun kv => kv.1 ≠ k)).find? (fun kv => kv.1 = k') =
        m.find? (fun kv => kv.1 = k') := by
  intro m
  induction m with
  | nil => rfl
  | cons kv rest ih =>
    by_cases h1 : kv.1 = k
    · have h2 : ¬ kv.1 = k' := by rw [h1]; exact hk
      rw [List.filter_cons_of_neg (by simpa using h1),
        List.find?_cons_of_neg _ (by simpa using h2)]
      exact ih
    · rw [List.filter_cons_of_pos (by simpa using h1)]
      by_cases h2 : kv.1 = k'
      · rw [List.find?_cons_of_pos _ (by simpa using h2),
          List.find?_cons_of_pos _ (by simpa using h2)]
      · rw [List.find?_cons_of_neg _ (by simpa using h2),
          List.find?_cons_of_neg _ (by simpa using h2)]
        exact ih

theorem mapGet_mapSet {α : Type} (m : List (String × α)) (k k' : String) (v : α) :
    mapGet (mapSet m k v) k' = if k' = k then some v else mapGet m k' := by
  by_cases h : k' = k
  · subst h
    simp [mapGet, mapSet]
  · have hk : ¬ k = k' := fun hc => h hc.symm
    simp only [mapGet, mapSet, h, if_false]
    rw [List.find?_cons_of_neg _ (by simpa using hk), find_filter_ne k k' hk]

theorem mapGet_some_mem {α : Type} (m : List (String × α)) (k : String) (v : α)
    (h : mapGet m k = some v) : (k, v) ∈ m := by
  simp only [mapGet, Option.map_eq_some'] at h
  obtain ⟨kv, hfind, rfl⟩ := h
  have hmem := List.mem_of_find?_eq_some hfind
  have hkey := List.find?_some hfind
  have hk : kv.1 = k := by simpa using hkey
  rw [← hk]
  exact hmem

theorem mapGet_some_key {α : Type} (m : List (String × α)) (k : String) (v : α)
    (h : mapGet m k = some v) : k ∈ mapKeys m := by
  have := mapGet_some_mem m k v h
  exact List.mem_map.mpr ⟨(k, v), this, rfl⟩

theorem mapGet_of_mem {α : Type} (m : List (String × α)) (k : String) (v : α)
    (h : (k, v) ∈ m) : ∃ w, mapGet m k = some w := by
  induction m with
  | nil => simp at h
  | cons kv rest ih =>
    by_cases hk : kv.1 = k
    · exact ⟨kv.2, by simp [mapGet, List.find?_cons, hk]⟩
    · have hne : kv ≠ (k, v) := by rintro rfl; exact hk rfl
      have hrest : (k, v) ∈ rest := by
        rcases List.mem_cons.mp h with h1 | h1
        · exact absurd h1.symm hne
        · exact h1
      obtain ⟨w, hw⟩ := ih hrest
      refine ⟨w, ?_⟩
      simp only [mapGet] at hw ⊢
      rw [List.find?_cons_of_neg _ (by simpa using hk)]
      exact hw

theorem foldl_establish {σ α : Type} (f : σ → α → σ) (P : σ → Prop) (a : α)
    (hpres : ∀ s b, P s → P (f s b)) (hest : ∀ s, P (f s a)) :
    ∀ (l : List α) (init : σ), a ∈ l → P (l.foldl f init) := by
  have hkeep : ∀ (l : List α) (init : σ), P init → P (l.foldl f init) := by
    intro l
    induction l with
    | nil => intro init h; exact h
    | cons b rest ih => intro init h; exact ih _ (hpres init b h)
  intro l
  induction l with
  | nil => intro init h; simp at h
  | cons b rest ih =>
    intro init h
    rcases List.mem_cons.mp h with rfl | h1
    · exact hkeep rest _ (hest init)
    · exact ih _ h1

theorem foldl_preserve {σ α : Type} (f : σ → α → σ) (P : σ → Prop)
    (hpres : ∀ s b, P s → P (f s b)) :
    ∀ (l : List α) (init : σ), P init → P (l.foldl f init) := by
  intro l
  induction l with
  | nil => intro init h; exact h
  | cons b rest ih => intro init h; exact ih _ (hpres init b h)

/-! ## Zone scanner: failed subtype queries -/

theorem zone_step_other (s : zone.Scanner) (company : String) (page size : Int) (m : AssetMap)
    (t k : String) (h : k ≠ t) :
    mapGet (zone.searchStep s company page size m t) k = mapGet m k := by
  unfold zone.searchStep
  cases s.searchByType company t page size with
  | error err =>
    by_cases hp : (stringsContains err "无权限" || stringsContains err "未授权") = true
    · simp only [hp, if_true, mapGet_mapSet, h, if_false]
    · show mapGet (if (stringsContains err "无权限" || stringsContains err "未授权") = true
          then mapSet m t [zone.placeholder t] else m) k = mapGet m k
      rw [if_neg hp]
  | ok rs =>
    by_cases hl : rs.length > 0
    · simp only [hl, if_true, mapGet_mapSet, h, if_false]
    · simp only [hl, if_false]

theorem zone_fold_denied (s : zone.Scanner) (company : String) (page size : Int) (k msg : String)
    (herr : s.searchByType company k page size = .error msg)
    (hperm : (stringsContains msg "无权限" || stringsContains msg "未授权") = true) :
    ∀ (types : List String) (m : AssetMap),
      (k ∈ types ∨ mapGet m k = some [zone.placeholder k]) →
      mapGet (types.foldl (zone.searchStep s company page size) m) k =
        some [zone.placeholder k] := by
  intro types
  induction types with
  | nil =>
    intro m h
    rcases h with h | h
    · simp at h
    · exact h
  | cons t rest ih =>
    intro m h
    simp only [List.foldl_cons]
    apply ih
    by_cases hkt : k = t
    · right
      subst hkt
      unfold zone.searchStep
      simp only [herr, hperm, if_true, mapGet_mapSet]
    · rcases h with h | h
      · rcases List.mem_cons.mp h with h1 | h1
        · exact absurd h1 hkt
        · exact Or.inl h1
      · right
        rw [zone_step_other s company page size m t k hkt]
        exact h

theorem zone_fold_failed (s : zone.Scanner) (company : String) (page size : Int) (k msg : String)
    (herr : s.searchByType company k page size = .error msg)
    (hnot : (stringsContains msg "无权限" || stringsContains msg "未授权") = false) :
    ∀ (types : List String) (m : AssetMap),
      mapGet (types.foldl (zone.searchStep s company page size) m) k = mapGet m k := by
  intro types
  induction types with
  | nil => intro m; rfl
  | cons t rest ih =>
    intro m
    simp only [List.foldl_cons]
    rw [ih]
    by_cases hkt : k = t
    · subst hkt
      unfold zone.searchStep
      simp only [herr, hnot, Bool.false_eq_true, if_false]
    · exact zone_step_other s company page size m t k hkt

/-! ## Company orchestrator: what a merge keeps -/

theorem merge_mono (x : Asset) (k : String) (am all : AssetMap)
    (h : x ∈ (mapGet all k).getD []) : x ∈ (mapGet (co.merge all am) k).getD [] := by
  unfold co.merge
  refine foldl_preserve _ (fun all => x ∈ (mapGet all k).getD []) ?_ am all h
  intro all kv hx
  show x ∈ (mapGet (mapSet all kv.1 ((mapGet all kv.1).getD [] ++ kv.2)) k).getD []
  rw [mapGet_mapSet]
  by_cases hk : k = kv.1
  · simp only [hk, if_true, Option.getD_some, List.mem_append]
    left
    rw [← hk]
    exact hx
  · simp only [hk, if_false]
    exact hx

theorem merge_mem (x : Asset) (k : String) (am all : AssetMap) (v : List Asset)
    (hkv : (k, v) ∈ am) (hx : x ∈ v) : x ∈ (mapGet (co.merge all am) k).getD [] := by
  unfold co.merge
  refine foldl_establish _ (fun all => x ∈ (mapGet all k).getD []) (k, v) ?_ ?_ am all hkv
  · intro all kv hx'
    show x ∈ (mapGet (mapSet all kv.1 ((mapGet all kv.1).getD [] ++ kv.2)) k).getD []
    rw [mapGet_mapSet]
    by_cases hk : k = kv.1
    · simp only [hk, if_true, Option.getD_some, List.mem_append]
      left
      rw [← hk]
      exact hx'
    · simp only [hk, if_false]
      exact hx'
  · intro all
    show x ∈ (mapGet (mapSet all k ((mapGet all k).getD [] ++ v)) k).getD []
    rw [mapGet_mapSet]
    simp only [if_true, Option.getD_some, List.mem_append]
    exact Or.inr hx

theorem co_step_mono (x : Asset) (k : String) (pageSize : Int) (company : String)
    (st : AssetMap × List co.Call) (sc : Option co.Scanner)
    (h : x ∈ (mapGet st.1 k).getD []) :
    x ∈ (mapGet (co.step pageSize company st sc).1 k).getD [] := by
  cases sc with
  | none => exact h
  | some scanner =>
    simp only [co.step]
    cases scanner.SearchByCompany company 1 pageSize with
    | error e => exact h
    | ok am => exact merge_mono x k am st.1 h

theorem co_step_zone (z : zone.Scanner) (company subtype msg : String) (pageSize : Int)
    (st : AssetMap × List co.Call)
    (hmem : subtype ∈ z.typeOrder)
    (herr : z.searchByType company subtype 1 pageSize = .error msg)
    (hperm : (stringsContains msg "无权限" || stringsContains msg "未授权") = true) :
    zone.placeholder subtype ∈
      (mapGet (co.step pageSize company st (some (co.Scanner.zone z))).1 subtype).getD [] := by
  simp only [co.step, co.Scanner.SearchByCompany, zone.Scanner.SearchByCompany]
  apply merge_mem _ subtype _ st.1 [zone.placeholder subtype]
  · apply mapGet_some_mem
    exact zone_fold_denied z company 1 pageSize subtype msg herr hperm z.typeOrder []
      (Or.inl hmem)
  · exact List.mem_singleton.mpr rfl

/-! ## Permission placeholders -/

/-- C13: when the query of a subtype fails with a permission error (message
containing `无权限` or `未授权`), `SearchByCompany` of the zone scanner returns
no error and maps the subtype to exactly one record, the placeholder (title
`API访问受限`, source `0.zone`); and `SearchCompanies`, run on a company list
containing the company with the zone scanner registered, returns that record
among its results with a `nil` error when saving succeeds. -/
theorem SearchCompanies_permission_placeholder (z : zone.Scanner) (c : co.CompanyScanner)
    (companies : List String) (company subtype msg : String) (page size maxPage pageSize : Int)
    (flat : List String)
    (htypes : z.typeOrder.Perm (mapKeys zone.searchTypes))
    (hsub : subtype ∈ mapKeys zone.searchTypes)
    (hperm : stringsContains msg "无权限" = true ∨ stringsContains msg "未授权" = true)
    (herr : z.searchByType company subtype page size = .error msg)
    (herr1 : z.searchByType company subtype 1 pageSize = .error msg)
    (hreg : some (co.Scanner.zone z) ∈ c.scanners)
    (hcomp : company ∈ companies)
    (hsave : ∀ z', co.getZoneScanner c = some z' →
      z'.SaveResults (co.collect c companies pageSize).1 "results.xlsx" = none)
    (hflat : flat.Perm (mapKeys (co.collect c companies pageSize).1)) :
    (∃ m, z.SearchByCompany company page size = .ok m ∧
      mapGet m subtype = some [zone.placeholder subtype]) ∧
    (zone.placeholder subtype).Title = "API访问受限" ∧
    (zone.placeholder subtype).Source = "0.zone" ∧
    zone.placeholder subtype ∈ (co.SearchCompanies c companies maxPage pageSize flat).results ∧
    (co.SearchCompanies c companies maxPage pageSize flat).err = none := by
  have hp : (stringsContains msg "无权限" || stringsContains msg "未授权") = true := by
    rcases hperm with h | h <;> simp [h]
  have hmem : subtype ∈ z.typeOrder := htypes.mem_iff.mpr hsub
  refine ⟨⟨_, rfl, zone_fold_denied z company page size subtype msg herr hp z.typeOrder []
    (Or.inl hmem)⟩, rfl, rfl, ?_⟩
  have hinner : ∀ st : AssetMap × List co.Call,
      zone.placeholder subtype ∈
        (mapGet (c.scanners.foldl (co.step pageSize company) st).1 subtype).getD [] := by
    intro st
    exact foldl_establish (co.step pageSize company)
      (fun st => zone.placeholder subtype ∈ (mapGet st.1 subtype).getD [])
      (some (co.Scanner.zone z))
      (fun s b h => co_step_mono _ subtype pageSize company s b h)
      (fun s => co_step_zone z company subtype msg pageSize s hmem herr1 hp)
      c.scanners st hreg
  have hall : zone.placeholder subtype ∈
      (mapGet (co.collect c companies pageSize).1 subtype).getD [] := by
    unfold co.collect
    exact foldl_establish
      (fun st company' => c.scanners.foldl (co.step pageSize company') st)
      (fun st => zone.placeholder subtype ∈ (mapGet st.1 subtype).getD [])
      company
      (fun s b h => foldl_preserve (co.step pageSize b)
        (fun st => zone.placeholder subtype ∈ (mapGet st.1 subtype).getD [])
        (fun s' b' h' => co_step_mono _ subtype pageSize b s' b' h') c.scanners s h)
      hinner companies ([], []) hcomp
  have hkey : subtype ∈ flat := by
    apply hflat.mem_iff.mpr
    cases hget : mapGet (co.collect c companies pageSize).1 subtype with
    | none => rw [hget] at hall; simp at hall
    | some v => exact mapGet_some_key _ _ v hget
  have hsaved : (match co.getZoneScanner c with
      | some zoneScanner => zoneScanner.SaveResults (co.collect c companies pageSize).1 "results.xlsx"
      | none => none) = none := by
    cases hz : co.getZoneScanner c with
    | none => rfl
    | some z' => exact hsave z' hz
  simp only [co.SearchCompanies, hsaved]
  exact ⟨List.mem_flatMap.mpr ⟨subtype, hkey, hall⟩, trivial⟩

/-- C13 at a concrete run: the zone scanner refuses `email` for lack of
permission; one company. -/
theorem SearchCompanies_permission_placeholder_witness :
    zone.placeholder "email" ∈
      (co.SearchCompanies { scanners := [some (co.Scanner.zone exampleZone)] } ["ACME"] 3 10
        ["email"]).results ∧
    (co.SearchCompanies { scanners := [some (co.Scanner.zone exampleZone)] } ["ACME"] 3 10
        ["email"]).err = none :=
  (SearchCompanies_permission_placeholder exampleZone
    { scanners := [some (co.Scanner.zone exampleZone)] } ["ACME"] "ACME" "email"
    "无权限访问该数据" 1 10 3 10 ["email"]
    (List.Perm.refl _) (by decide) (Or.inl (by decide)) rfl rfl
    (List.mem_singleton.mpr rfl) (List.mem_singleton.mpr rfl)
    (fun z' hz => by
      have hz' : exampleZone = z' := Option.some.inj hz
      subst hz'
      rfl)
    (List.Perm.refl _)).2.2.2

/-- C14, as stated, fails: for `exampleZone` the `site` query fails with a
transport error and the `email` query with a permission error; the result map
holds the placeholder for `email` only, and `site` is absent from it. -/
theorem SearchByCompany_drops_failed_subtype :
    exampleZone.searchByType "ACME" "site" 1 10 = .error "请求失败: timeout" ∧
    exampleZone.SearchByCompany "ACME" 1 10 = .ok [("email", [zone.placeholder "email"])] ∧
    mapGet [("email", [zone.placeholder "email"])] "site" = none :=
  ⟨rfl, rfl, by decide⟩

/-- C14, amended: for a subtype whose query fails, the result map of
`SearchByCompany` holds exactly the placeholder record for that subtype when the
error is a permission error (message containing `无权限` or `未授权`), and holds
no entry for that subtype when the query fails with any other error. -/
theorem SearchByCompany_failed_subtype (z : zone.Scanner) (company subtype msg : String)
    (page size : Int)
    (htypes : z.typeOrder.Perm (mapKeys zone.searchTypes))
    (hsub : subtype ∈ mapKeys zone.searchTypes)
    (herr : z.searchByType company subtype page size = .error msg) :
    ∃ m, z.SearchByCompany company page size = .ok m ∧
      ((stringsContains msg "无权限" = true ∨ stringsContains msg "未授权" = true) →
        mapGet m subtype = some [zone.placeholder subtype]) ∧
      (stringsContains msg "无权限" = false → stringsContains msg "未授权" = false →
        mapGet m subtype = none ∧ subtype ∉ mapKeys m) := by
  refine ⟨_, rfl, ?_, ?_⟩
  · intro hperm
    have hp : (stringsContains msg "无权限" || stringsContains msg "未授权") = true := by
      rcases hperm with h | h <;> simp [h]
    exact zone_fold_denied z company page size subtype msg herr hp z.typeOrder []
      (Or.inl (htypes.mem_iff.mpr hsub))
  · intro h1 h2
    have hn : (stringsContains msg "无权限" || stringsContains msg "未授权") = false := by
      simp [h1, h2]
    have hget := zone_fold_failed z company page size subtype msg herr hn z.typeOrder []
    have hnone : mapGet (z.typeOrder.foldl (zone.searchStep z company page size) []) subtype =
        none := by rw [hget]; rfl
    refine ⟨hnone, ?_⟩
    intro hk
    obtain ⟨kv, hkv, hfst⟩ := List.mem_map.mp hk
    obtain ⟨w, hw⟩ := mapGet_of_mem _ subtype kv.2 (by rw [← hfst]; exact hkv)
    rw [hnone] at hw
    exact absurd hw (by simp)

/-- C14 amended, at `exampleZone`: the transport failure of `site` leaves no
entry. -/
theorem SearchByCompany_failed_subtype_witness :
    ∃ m, exampleZone.SearchByCompany "ACME" 1 10 = .ok m ∧
      ((stringsContains "请求失败: timeout" "无权限" = true ∨
          stringsContains "请求失败: timeout" "未授权" = true) →
        mapGet m "site" = some [zone.placeholder "site"]) ∧
      (stringsContains "请求失败: timeout" "无权限" = false →
        stringsContains "请求失败: timeout" "未授权" = false →
        mapGet m "site" = none ∧ "site" ∉ mapKeys m) :=
  SearchByCompany_failed_subtype exampleZone "ACME" "site" "请求失败: timeout" 1 10
    (List.Perm.refl _) (by decide) rfl

/-! ## Order of the calls of `searchSingle` -/

theorem paginate_calls_shape (scanner : Scanner) (query : String) (pageSize : Int) :
    ∀ (fuel : Nat) (page : Int),
      ∃ (k : Nat) (tail : List Call), k ≤ fuel ∧
        (paginate scanner query pageSize fuel page Run.empty).calls =
          (List.range k).flatMap (fun i =>
            [Call.wait scanner.Name,
             Call.search scanner.Name query (page + (i : Int)) pageSize]) ++ tail ∧
        (tail = [] ∨ ∃ err, tail = [Call.handleError scanner.Name err]) := by
  intro fuel
  induction fuel with
  | zero =>
    intro page
    exact ⟨0, [], le_refl _, by simp [paginate, Run.empty], Or.inl rfl⟩
  | succ n ih =>
    intro page
    have hr1 : List.range 1 = [0] := rfl
    unfold paginate
    cases hS : scanner.Search query page pageSize with
    | error err =>
      exact ⟨1, [Call.handleError scanner.Name err], by omega, by simp [Run.empty, hr1],
        Or.inr ⟨err, rfl⟩⟩
    | ok assets =>
      by_cases hlen : assets.length = 0
      · exact ⟨1, [], by omega, by simp [hlen, Run.empty, hr1], Or.inl rfl⟩
      · obtain ⟨k, tail, hk, hcalls, htail⟩ := ih (page + 1)
        refine ⟨k + 1, tail, by omega, ?_, htail⟩
        simp only [hlen, if_false]
        rw [paginate_acc, hcalls]
        simp only [Run.empty, List.nil_append, List.range_succ_eq_map, List.flatMap_cons,
          List.flatMap_map, Nat.cast_zero, add_zero, List.cons_append, List.cons.injEq,
          true_and]
        congr 2
        funext i
        have e3 : page + 1 + (i : Int) = page + ((Nat.succ i : Nat) : Int) := by
          push_cast; ring
        rw [e3]

theorem foldl_visit_flatMap (target : Target) (maxPage pageSize : Int) :
    ∀ (l : List (Option Scanner)),
      l.foldl (visit target maxPage pageSize) Run.empty =
        { results := l.flatMap (fun sc => (visit target maxPage pageSize Run.empty sc).results),
          calls := l.flatMap (fun sc => (visit target maxPage pageSize Run.empty sc).calls) } := by
  intro l
  induction l with
  | nil => rfl
  | cons sc rest ih =>
    simp only [List.foldl_cons, List.flatMap_cons]
    rw [foldl_visit_acc, ih]

/-- C21: the calls of `searchSingle` are the calls of the visits of the backends
in registration order. The calls of one visit are, for some `k ≤ maxPage` (`k = 0`
when `maxPage ≤ 0`), one `wait` on the limiter of the backend followed by the
`Search` of page `i`, for `i = 1, ..., k` in this order, then nothing or one
`handleError`; a `nil` backend is not called. For `maxPage ≤ 0` no call is made
and the result is empty. -/
theorem searchSingle_calls_in_order (e : SearchEngine) (t : Target) (maxPage pageSize : Int) :
    (searchSingle e t maxPage pageSize).calls =
      e.scanners.flatMap (fun sc => (visit t maxPage pageSize Run.empty sc).calls) ∧
    (searchSingle e t maxPage pageSize).results =
      e.scanners.flatMap (fun sc => (visit t maxPage pageSize Run.empty sc).results) ∧
    (visit t maxPage pageSize Run.empty none).calls = [] ∧
    (∀ B : Scanner, ∃ (k : Nat) (tail : List Call),
      k ≤ maxPage.toNat ∧ (k : Int) ≤ max maxPage 0 ∧
      (visit t maxPage pageSize Run.empty (some B)).calls =
        (List.range k).flatMap (fun i =>
          [Call.wait B.Name,
           Call.search B.Name (buildQuery B.Name t) ((i : Int) + 1) pageSize]) ++ tail ∧
      (tail = [] ∨ ∃ err, tail = [Call.handleError B.Name err])) ∧
    (maxPage ≤ 0 →
      (searchSingle e t maxPage pageSize).calls = [] ∧
      (searchSingle e t maxPage pageSize).results = []) := by
  have hfold := foldl_visit_flatMap t maxPage pageSize e.scanners
  have hcalls : (searchSingle e t maxPage pageSize).calls =
      e.scanners.flatMap (fun sc => (visit t maxPage pageSize Run.empty sc).calls) := by
    show (e.scanners.foldl (visit t maxPage pageSize) Run.empty).calls = _
    rw [hfold]
  have hres : (searchSingle e t maxPage pageSize).results =
      e.scanners.flatMap (fun sc => (visit t maxPage pageSize Run.empty sc).results) := by
    show (e.scanners.foldl (visit t maxPage pageSize) Run.empty).results = _
    rw [hfold]
  refine ⟨hcalls, hres, rfl, ?_, ?_⟩
  · intro B
    obtain ⟨k, tail, hk, hc, htail⟩ :=
      paginate_calls_shape B (buildQuery B.Name t) pageSize maxPage.toNat 1
    refine ⟨k, tail, hk, by omega, ?_, htail⟩
    simp only [visit]
    rw [hc]
    congr 2
    funext i
    have e1 : (1 : Int) + (i : Int) = (i : Int) + 1 := by ring
    rw [e1]
  · intro hmax
    have h0 : maxPage.toNat = 0 := by omega
    have hv : ∀ sc : Option Scanner, visit t maxPage pageSize Run.empty sc = Run.empty := by
      intro sc
      cases sc with
      | none => rfl
      | some B => simp only [visit, h0, paginate]
    rw [hcalls, hres]
    constructor
    · apply List.flatMap_eq_nil_iff.mpr
      intro sc _
      rw [hv sc]
      rfl
    · apply List.flatMap_eq_nil_iff.mpr
      intro sc _
      rw [hv sc]
      rfl

/-! ## Company orchestrator: the calls made -/

theorem co_step_calls (pageSize : Int) (company : String) :
    ∀ (l : List (Option co.Scanner)) (st : AssetMap × List co.Call),
      (l.foldl (co.step pageSize company) st).2 =
        st.2 ++ l.filterMap (fun sc => sc.map (fun s =>
          ({ scanner := s.Name, company := company, page := 1, size := pageSize } : co.Call))) := by
  intro l
  induction l with
  | nil => intro st; simp
  | cons sc rest ih =>
    intro st
    simp only [List.foldl_cons]
    rw [ih]
    cases sc with
    | none => simp [co.step]
    | some scanner =>
      simp only [co.step]
      cases scanner.SearchByCompany company 1 pageSize <;> simp

theorem co_collect_calls (c : co.CompanyScanner) (pageSize : Int) :
    ∀ (companies : List String) (st : AssetMap × List co.Call),
      (companies.foldl (fun st company => c.scanners.foldl (co.step pageSize company) st) st).2 =
        st.2 ++ companies.flatMap (fun company => c.scanners.filterMap (fun sc => sc.map (fun s =>
          ({ scanner := s.Name, company := company, page := 1, size := pageSize } : co.Call)))) := by
  intro companies
  induction companies with
  | nil => intro st; simp
  | cons company rest ih =>
    intro st
    simp only [List.foldl_cons, List.flatMap_cons]
    rw [ih, co_step_calls, List.append_assoc]

/-- C23: the calls of `SearchCompanies` are, company by company, one call of
`SearchByCompany` for page 1 to each non-nil backend in registration order.
Two runs that differ only in `maxPage` (and in the order in which the final
result map is visited) make the same calls, return the same error, and return
the same assets up to rearrangement. -/
theorem SearchCompanies_maxPage_irrelevant (c : co.CompanyScanner) (companies : List String)
    (maxPage1 maxPage2 pageSize : Int) (flat1 flat2 : List String)
    (h1 : flat1.Perm (mapKeys (co.collect c companies pageSize).1))
    (h2 : flat2.Perm (mapKeys (co.collect c companies pageSize).1)) :
    (co.SearchCompanies c companies maxPage1 pageSize flat1).calls =
      companies.flatMap (fun company => c.scanners.filterMap (fun sc => sc.map (fun s =>
        ({ scanner := s.Name, company := company, page := 1, size := pageSize } : co.Call)))) ∧
    (co.SearchCompanies c companies maxPage1 pageSize flat1).calls =
      (co.SearchCompanies c companies maxPage2 pageSize flat2).calls ∧
    (co.SearchCompanies c companies maxPage1 pageSize flat1).err =
      (co.SearchCompanies c companies maxPage2 pageSize flat2).err ∧
    (co.SearchCompanies c companies maxPage1 pageSize flat1).results.Perm
      (co.SearchCompanies c companies maxPage2 pageSize flat2).results := by
  have hflat : flat1.Perm flat2 := h1.trans h2.symm
  have hcalls : ∀ (mp : Int) (flat : List String),
      (co.SearchCompanies c companies mp pageSize flat).calls =
        (co.collect c companies pageSize).2 := by
    intro mp flat
    simp only [co.SearchCompanies]
    split <;> rfl
  refine ⟨?_, ?_, ?_, ?_⟩
  · rw [hcalls]
    simpa [co.collect] using co_collect_calls c pageSize companies ([], [])
  · rw [hcalls, hcalls]
  · simp only [co.SearchCompanies]
    split <;> rfl
  · simp only [co.SearchCompanies]
    split
    · exact List.Perm.refl _
    · exact List.Perm.flatMap_right _ hflat

/-- C23 at a concrete run: the zone scanner and two companies, with `maxPage` 1
and 50. -/
theorem SearchCompanies_maxPage_irrelevant_witness :
    (co.SearchCompanies { scanners := [some (co.Scanner.zone exampleZone), none] }
        ["ACME", "Globex"] 1 10 ["email"]).calls =
      (co.SearchCompanies { scanners := [some (co.Scanner.zone exampleZone), none] }
        ["ACME", "Globex"] 50 10 ["email"]).calls :=
  (SearchCompanies_maxPage_irrelevant
    { scanners := [some (co.Scanner.zone exampleZone), none] } ["ACME", "Globex"] 1 50 10
    ["email"] ["email"] (List.Perm.refl _) (List.Perm.refl _)).2.1

/-! ## IP validation -/

/-- C24, failing inputs: `strconv.Atoi` accepts a leading sign, so `isValidIP`
accepts `+1.2.3.4` and `-0.0.0.0`, whose first parts are not runs of decimal
digits. -/
theorem isValidIP_accepts_sign :
    excel.isValidIP "+1.2.3.4" = true ∧
    excel.isValidIP "-0.0.0.0" = true ∧
    excel.stringsSplit "+1.2.3.4" '.' = ["+1", "2", "3", "4"] ∧
    excel.strconvAtoi "+1" = some 1 ∧
    excel.strconvAtoi "-0" = some 0 := by
  decide

/-! ## De-duplication -/

theorem dedupLoop_acc : ∀ (l : List Asset) (seen : List String) (result : List Asset),
    excel.dedupLoop seen result l = result ++ excel.dedupLoop seen [] l := by
  intro l
  induction l with
  | nil => intro seen result; simp [excel.dedupLoop]
  | cons a rest ih =>
    intro seen result
    unfold excel.dedupLoop
    by_cases hk : excel.generateAssetKey a ∈ seen
    · simp only [hk, if_true]
      exact ih seen result
    · simp only [hk, if_false]
      rw [ih _ (result ++ [a]), ih _ ([] ++ [a])]
      simp

theorem dedupLoop_cons_seen (a : Asset) (rest : List Asset) (seen : List String)
    (hk : excel.generateAssetKey a ∈ seen) :
    excel.dedupLoop seen [] (a :: rest) = excel.dedupLoop seen [] rest := by
  conv_lhs => unfold excel.dedupLoop
  simp only [hk, if_true]

theorem dedupLoop_cons_new (a : Asset) (rest : List Asset) (seen : List String)
    (hk : excel.generateAssetKey a ∉ seen) :
    excel.dedupLoop seen [] (a :: rest) =
      a :: excel.dedupLoop (excel.generateAssetKey a :: seen) [] rest := by
  conv_lhs => unfold excel.dedupLoop
  simp only [hk, if_false]
  rw [dedupLoop_acc]
  simp

theorem dedupLoop_sublist : ∀ (l : List Asset) (seen : List String),
    (excel.dedupLoop seen [] l).Sublist l := by
  intro l
  induction l with
  | nil => intro seen; simp [excel.dedupLoop]
  | cons a rest ih =>
    intro seen
    by_cases hk : excel.generateAssetKey a ∈ seen
    · rw [dedupLoop_cons_seen a rest seen hk]
      exact (ih seen).cons a
    · rw [dedupLoop_cons_new a rest seen hk]
      exact (ih _).cons₂ a

theorem dedupLoop_not_seen : ∀ (l : List Asset) (seen : List String),
    ∀ a ∈ excel.dedupLoop seen [] l, excel.generateAssetKey a ∉ seen := by
  intro l
  induction l with
  | nil => intro seen a ha; simp [excel.dedupLoop] at ha
  | cons b rest ih =>
    intro seen a ha
    by_cases hk : excel.generateAssetKey b ∈ seen
    · rw [dedupLoop_cons_seen b rest seen hk] at ha
      exact ih seen a ha
    · rw [dedupLoop_cons_new b rest seen hk] at ha
      rcases List.mem_cons.mp ha with rfl | h1
      · exact hk
      · intro hmem
        exact ih _ a h1 (List.mem_cons_of_mem _ hmem)

theorem dedupLoop_nodup : ∀ (l : List Asset) (seen : List String),
    ((excel.dedupLoop seen [] l).map excel.generateAssetKey).Nodup := by
  intro l
  induction l with
  | nil => intro seen; simp [excel.dedupLoop]
  | cons b rest ih =>
    intro seen
    by_cases hk : excel.generateAssetKey b ∈ seen
    · rw [dedupLoop_cons_seen b rest seen hk]
      exact ih seen
    · rw [dedupLoop_cons_new b rest seen hk, List.map_cons, List.nodup_cons]
      refine ⟨?_, ih _⟩
      intro hmem
      obtain ⟨a, ha, hkey⟩ := List.mem_map.mp hmem
      exact dedupLoop_not_seen rest _ a ha (by rw [hkey]; exact List.mem_cons_self _ _)

theorem dedupLoop_filter : ∀ (l : List Asset) (seen : List String) (k : String),
    (excel.dedupLoop seen [] l).filter (fun a => excel.generateAssetKey a = k) =
      if k ∈ seen then [] else (l.find? (fun a => excel.generateAssetKey a = k)).toList := by
  intro l
  induction l with
  | nil => intro seen k; simp [excel.dedupLoop]
  | cons b rest ih =>
    intro seen k
    by_cases hk : excel.generateAssetKey b ∈ seen
    · rw [dedupLoop_cons_seen b rest seen hk, ih seen k]
      by_cases hks : k ∈ seen
      · simp only [hks, if_true]
      · have hne : ¬ excel.generateAssetKey b = k := by
          intro h; rw [h] at hk; exact hks hk
        simp only [hks, if_false]
        rw [List.find?_cons_of_neg _ (by simpa using hne)]
    · rw [dedupLoop_cons_new b rest seen hk]
      by_cases hbk : excel.generateAssetKey b = k
      · have hks : k ∉ seen := by rw [← hbk]; exact hk
        rw [List.filter_cons_of_pos (by simpa using hbk), ih _ k,
          List.find?_cons_of_pos _ (by simpa using hbk)]
        simp [hks, hbk]
      · rw [List.filter_cons_of_neg (by simpa using hbk), ih _ k,
          List.find?_cons_of_neg _ (by simpa using hbk)]
        have hiff : k ∈ excel.generateAssetKey b :: seen ↔ k ∈ seen := by
          constructor
          · intro h
            rcases List.mem_cons.mp h with h1 | h1
            · exact absurd h1.symm hbk
            · exact h1
          · exact fun h => List.mem_cons_of_mem _ h
        by_cases hks : k ∈ seen
        · simp only [hiff.mpr hks, hks, if_true]
        · have hn : k ∉ excel.generateAssetKey b :: seen := fun h => hks (hiff.mp h)
          simp only [hn, hks, if_false]

theorem dedupLoop_fixed : ∀ (m : List Asset) (seen : List String),
    (m.map excel.generateAssetKey).Nodup →
    (∀ a ∈ m, excel.generateAssetKey a ∉ seen) →
    excel.dedupLoop seen [] m = m := by
  intro m
  induction m with
  | nil => intro seen _ _; simp [excel.dedupLoop]
  | cons b rest ih =>
    intro seen hnd hseen
    have hb : excel.generateAssetKey b ∉ seen := hseen b (List.mem_cons_self _ _)
    rw [List.map_cons, List.nodup_cons] at hnd
    rw [dedupLoop_cons_new b rest seen hb, ih _ hnd.2]
    intro a ha hmem
    rcases List.mem_cons.mp hmem with h1 | h1
    · exact hnd.1 (List.mem_map.mpr ⟨a, ha, h1⟩)
    · exact hseen a (List.mem_cons_of_mem _ ha) h1

/-- C22: `deduplicateAssets` returns a subsequence of its input in which no two
assets have the same `generateAssetKey`; for every key, the assets of the result
with that key are exactly the first input asset with that key (none when the key
does not occur); the function is idempotent and never lengthens the list. -/
theorem deduplicateAssets_spec (assets : List Asset) :
    (excel.deduplicateAssets assets).Sublist assets ∧
    ((excel.deduplicateAssets assets).map excel.generateAssetKey).Nodup ∧
    (∀ k : String,
      (excel.deduplicateAssets assets).filter (fun a => excel.generateAssetKey a = k) =
        (assets.find? (fun a => excel.generateAssetKey a = k)).toList) ∧
    excel.deduplicateAssets (excel.deduplicateAssets assets) = excel.deduplicateAssets assets ∧
    (excel.deduplicateAssets assets).length ≤ assets.length := by
  refine ⟨dedupLoop_sublist assets [], dedupLoop_nodup assets [], ?_, ?_,
    (dedupLoop_sublist assets []).length_le⟩
  · intro k
    have h := dedupLoop_filter assets [] k
    simpa [excel.deduplicateAssets] using h
  · exact dedupLoop_fixed _ [] (dedupLoop_nodup assets []) (fun _ _ h => by simp at h)

/-! ## Splitting and joining -/

theorem splitChars_ne_nil (sep : Char) : ∀ l : List Char, excel.splitChars sep l ≠ [] := by
  intro l
  induction l with
  | nil => simp [excel.splitChars]
  | cons c rest ih =>
    unfold excel.splitChars
    by_cases hc : c = sep
    · simp [hc]
    · simp only [hc, if_false]
      cases excel.splitChars sep rest <;> simp

theorem joinChars_cons_head (sep : List Char) (c : Char) (p : List Char)
    (ps : List (List Char)) :
    excel.joinChars sep ((c :: p) :: ps) = c :: excel.joinChars sep (p :: ps) := by
  cases ps with
  | nil => simp [excel.joinChars]
  | cons q qs => simp [excel.joinChars]

theorem joinChars_splitChars (sep : Char) : ∀ l : List Char,
    excel.joinChars [sep] (excel.splitChars sep l) = l := by
  intro l
  induction l with
  | nil => simp [excel.splitChars, excel.joinChars]
  | cons c rest ih =>
    unfold excel.splitChars
    by_cases hc : c = sep
    · simp only [hc, if_true]
      cases hs : excel.splitChars sep rest with
      | nil => exact absurd hs (splitChars_ne_nil sep rest)
      | cons q qs =>
        rw [hs] at ih
        simp [excel.joinChars, ih]
    · simp only [hc, if_false]
      cases hs : excel.splitChars sep rest with
      | nil => exact absurd hs (splitChars_ne_nil sep rest)
      | cons q qs =>
        rw [hs] at ih
        simp only []
        rw [joinChars_cons_head, ih]

theorem splitChars_no_sep (sep : Char) : ∀ l : List Char,
    ∀ p ∈ excel.splitChars sep l, sep ∉ p := by
  intro l
  induction l with
  | nil => intro p hp; simp [excel.splitChars] at hp; simp [hp]
  | cons c rest ih =>
    intro p hp
    unfold excel.splitChars at hp
    by_cases hc : c = sep
    · simp only [hc, if_true] at hp
      rcases List.mem_cons.mp hp with rfl | h1
      · simp
      · exact ih p h1
    · simp only [hc, if_false] at hp
      cases hs : excel.splitChars sep rest with
      | nil => exact absurd hs (splitChars_ne_nil sep rest)
      | cons q qs =>
        rw [hs] at hp ih
        simp only [] at hp
        rcases List.mem_cons.mp hp with rfl | h1
        · intro hmem
          rcases List.mem_cons.mp hmem with h2 | h2
          · exact hc h2.symm
          · exact ih q (List.mem_cons_self _ _) h2
        · exact ih p (List.mem_cons_of_mem _ h1)

theorem splitChars_single (sep : Char) : ∀ p : List Char, sep ∉ p →
    excel.splitChars sep p = [p] := by
  intro p
  induction p with
  | nil => intro _; simp [excel.splitChars]
  | cons c rest ih =>
    intro h
    have hc : ¬ c = sep := fun hc => h (by simp [hc])
    have hrest : sep ∉ rest := fun hm => h (List.mem_cons_of_mem _ hm)
    unfold excel.splitChars
    simp only [hc, if_false, ih hrest]

theorem splitChars_append_sep (sep : Char) (tail : List Char) : ∀ p : List Char, sep ∉ p →
    excel.splitChars sep (p ++ sep :: tail) = p :: excel.splitChars sep tail := by
  intro p
  induction p with
  | nil =>
    intro _
    conv_lhs => unfold excel.splitChars
    simp
  | cons c rest ih =>
    intro h
    have hc : ¬ c = sep := fun hc => h (by simp [hc])
    have hrest : sep ∉ rest := fun hm => h (List.mem_cons_of_mem _ hm)
    rw [List.cons_append]
    conv_lhs => unfold excel.splitChars
    simp only [hc, if_false, ih hrest]

theorem splitChars_joinChars (sep : Char) : ∀ parts : List (List Char), parts ≠ [] →
    (∀ p ∈ parts, sep ∉ p) → excel.splitChars sep (excel.joinChars [sep] parts) = parts := by
  intro parts
  induction parts with
  | nil => intro h; exact absurd rfl h
  | cons p rest ih =>
    intro _ hno
    cases rest with
    | nil =>
      simp only [excel.joinChars]
      exact splitChars_single sep p (hno p (List.mem_cons_self _ _))
    | cons q qs =>
      simp only [excel.joinChars, List.append_assoc, List.singleton_append]
      rw [splitChars_append_sep sep _ p (hno p (List.mem_cons_self _ _)),
        ih (by simp) (fun r hr => hno r (List.mem_cons_of_mem _ hr))]

theorem joinChars_drop_suffix (sep : List Char) : ∀ (parts : List (List Char)) (k : Nat),
    ∃ pre, excel.joinChars sep parts = pre ++ excel.joinChars sep (parts.drop k) := by
  intro parts
  induction parts with
  | nil => intro k; exact ⟨[], by simp⟩
  | cons p rest ih =>
    intro k
    cases k with
    | zero => exact ⟨[], by simp⟩
    | succ k =>
      obtain ⟨pre, hpre⟩ := ih k
      cases rest with
      | nil => exact ⟨p, by simp [excel.joinChars]⟩
      | cons q qs =>
        refine ⟨p ++ sep ++ pre, ?_⟩
        simp only [excel.joinChars, List.drop_succ_cons, List.append_assoc]
        rw [hpre]

/-! ## Domain normalisation -/

theorem stringsJoin_map_drop (cs : List (List Char)) (k : Nat) :
    excel.stringsJoin ((cs.map String.mk).drop k) "." =
      (⟨excel.joinChars ['.'] (cs.drop k)⟩ : String) := by
  unfold excel.stringsJoin
  rw [← List.map_drop, List.map_map]
  have hid : (String.data ∘ String.mk) = (id : List Char → List Char) := by
    funext l; rfl
  rw [hid, List.map_id]

theorem normalizeDomain_eq (d : String) (cs : List (List Char))
    (hcs : excel.splitChars '.' d.data = cs) :
    excel.normalizeDomain d =
      if cs.length ≤ 2 then d
      else if (⟨excel.joinChars ['.'] (cs.drop (cs.length - 2))⟩ : String) ∈ excel.specialTLDs then
        (if cs.length > 3 then (⟨excel.joinChars ['.'] (cs.drop (cs.length - 3))⟩ : String)
         else d)
      else (⟨excel.joinChars ['.'] (cs.drop (cs.length - 2))⟩ : String) := by
  unfold excel.normalizeDomain excel.stringsSplit
  simp only [hcs, List.length_map, stringsJoin_map_drop]
  by_cases h2 : cs.length ≤ 2
  · simp only [h2, if_true]
  · have h2' : cs.length > 2 := by omega
    simp only [h2, if_false, h2', if_true]

theorem normalizeDomain_fixed_join (ps : List (List Char)) (hne : ps ≠ [])
    (hno : ∀ p ∈ ps, '.' ∉ p)
    (hshape : ps.length ≤ 2 ∨
      (ps.length = 3 ∧
        (⟨excel.joinChars ['.'] (ps.drop 1)⟩ : String) ∈ excel.specialTLDs)) :
    excel.normalizeDomain (⟨excel.joinChars ['.'] ps⟩ : String) =
      (⟨excel.joinChars ['.'] ps⟩ : String) := by
  have hsplit : excel.splitChars '.' (⟨excel.joinChars ['.'] ps⟩ : String).data = ps :=
    splitChars_joinChars '.' ps hne hno
  rw [normalizeDomain_eq _ ps hsplit]
  rcases hshape with h | ⟨h3, hsp⟩
  · simp only [h, if_true]
  · have hn2 : ¬ ps.length ≤ 2 := by omega
    have hn3 : ¬ ps.length > 3 := by omega
    have hd : ps.length - 2 = 1 := by omega
    simp only [hn2, if_false, hd, hsp, if_true, hn3]

/-- C25: `normalizeDomain` is idempotent; its result is a suffix of its
argument; it is the argument itself when the argument has at most two
dot-separated labels, the last two labels joined by a dot when these do not form
one of the listed special suffixes, and the last three labels joined by dots
when they do. -/
theorem normalizeDomain_spec (d : String) :
    excel.normalizeDomain (excel.normalizeDomain d) = excel.normalizeDomain d ∧
    (∃ pre : String, d = pre ++ excel.normalizeDomain d) ∧
    ((excel.stringsSplit d '.').length ≤ 2 → excel.normalizeDomain d = d) ∧
    (2 < (excel.stringsSplit d '.').length →
      excel.stringsJoin ((excel.stringsSplit d '.').drop
        ((excel.stringsSplit d '.').length - 2)) "." ∉ excel.specialTLDs →
      excel.normalizeDomain d =
        excel.stringsJoin ((excel.stringsSplit d '.').drop
          ((excel.stringsSplit d '.').length - 2)) ".") ∧
    (2 < (excel.stringsSplit d '.').length →
      excel.stringsJoin ((excel.stringsSplit d '.').drop
        ((excel.stringsSplit d '.').length - 2)) "." ∈ excel.specialTLDs →
      excel.normalizeDomain d =
        excel.stringsJoin ((excel.stringsSplit d '.').drop
          ((excel.stringsSplit d '.').length - 3)) ".") := by
  have heq := normalizeDomain_eq d (excel.splitChars '.' d.data) rfl
  have hjoin : excel.joinChars ['.'] (excel.splitChars '.' d.data) = d.data :=
    joinChars_splitChars '.' d.data
  have hnosep := splitChars_no_sep '.' d.data
  generalize hcs : excel.splitChars '.' d.data = cs at heq hjoin hnosep
  have hlen : (excel.stringsSplit d '.').length = cs.length := by
    simp [excel.stringsSplit, hcs]
  have hdrop : ∀ k, excel.stringsJoin ((excel.stringsSplit d '.').drop k) "." =
      (⟨excel.joinChars ['.'] (cs.drop k)⟩ : String) := by
    intro k
    simp only [excel.stringsSplit, hcs]
    exact stringsJoin_map_drop cs k
  have hnodrop : ∀ k, ∀ p ∈ cs.drop k, '.' ∉ p :=
    fun k p hp => hnosep p (List.mem_of_mem_drop hp)
  have hsuffix : ∀ k, ∃ pre : String,
      d = pre ++ (⟨excel.joinChars ['.'] (cs.drop k)⟩ : String) := by
    intro k
    obtain ⟨pre, hpre⟩ := joinChars_drop_suffix ['.'] cs k
    refine ⟨⟨pre⟩, ?_⟩
    apply String.ext
    rw [String.data_append, ← hjoin, hpre]
  rw [hlen]
  simp only [hdrop]
  by_cases h2 : cs.length ≤ 2
  · have hd : excel.normalizeDomain d = d := by rw [heq]; simp only [h2, if_true]
    refine ⟨by rw [hd, hd], ⟨"", by rw [hd]; simp⟩, fun _ => hd, fun h => absurd h2 (by omega),
      fun h => absurd h2 (by omega)⟩
  · by_cases hsp : (⟨excel.joinChars ['.'] (cs.drop (cs.length - 2))⟩ : String) ∈
        excel.specialTLDs
    · by_cases h3 : cs.length > 3
      · have hd : excel.normalizeDomain d =
            (⟨excel.joinChars ['.'] (cs.drop (cs.length - 3))⟩ : String) := by
          rw [heq]; simp only [h2, if_false, hsp, if_true, h3]
        have hl3 : (cs.drop (cs.length - 3)).length = 3 := by
          rw [List.length_drop]; omega
        have hfix := normalizeDomain_fixed_join (cs.drop (cs.length - 3))
          (by intro hc; rw [hc] at hl3; simp at hl3) (hnodrop _)
          (Or.inr ⟨hl3, by
            rw [List.drop_drop]
            have e : cs.length - 3 + 1 = cs.length - 2 := by omega
            rw [e]
            exact hsp⟩)
        refine ⟨by rw [hd]; exact hfix, ?_, fun h => absurd h h2, fun _ hns => absurd hsp hns,
          fun _ _ => hd⟩
        rw [hd]
        exact hsuffix _
      · have hd : excel.normalizeDomain d = d := by
          rw [heq]; simp only [h2, if_false, hsp, if_true, h3]
        have hl3 : cs.length - 3 = 0 := by omega
        refine ⟨by rw [hd, hd], ⟨"", by rw [hd]; simp⟩, fun _ => hd,
          fun _ hns => absurd hsp hns, fun _ _ => ?_⟩
        rw [hd, hl3, List.drop_zero]
        apply String.ext
        rw [hjoin]
    · have hd : excel.normalizeDomain d =
          (⟨excel.joinChars ['.'] (cs.drop (cs.length - 2))⟩ : String) := by
        rw [heq]; simp only [h2, if_false, hsp]
      have hl2 : (cs.drop (cs.length - 2)).length = 2 := by
        rw [List.length_drop]; omega
      have hfix := normalizeDomain_fixed_join (cs.drop (cs.length - 2))
        (by intro hc; rw [hc] at hl2; simp at hl2) (hnodrop _) (Or.inl (by omega))
      refine ⟨by rw [hd]; exact hfix, ?_, fun h => absurd h h2, fun _ _ => hd,
        fun _ hs => absurd hs hsp⟩
      rw [hd]
      exact hsuffix _

/-! ## Engines built by `NewSearchEngine` -/

theorem registerLimits_registered (now : Int) :
    ∀ (l : List (Option Scanner)) (m m' : List (String × APIRateLimit)),
      registerLimits now l m = some m' →
      (∀ k, (∃ r, mapGet m k = some r) → ∃ r, mapGet m' k = some r) ∧
      (∀ s, some s ∈ l → ∃ r, mapGet m' s.Name = some r) := by
  intro l
  induction l with
  | nil =>
    intro m m' h
    simp only [registerLimits, Option.some.injEq] at h
    subst h
    exact ⟨fun _ hk => hk, fun s hs => by simp at hs⟩
  | cons sc rest ih =>
    intro m m' h
    cases sc with
    | none => simp [registerLimits] at h
    | some scanner =>
      simp only [registerLimits] at h
      obtain ⟨hkeep, hreg⟩ := ih _ m' h
      constructor
      · intro k hk
        apply hkeep
        rw [mapGet_mapSet]
        by_cases hks : k = scanner.Name
        · exact ⟨_, by rw [if_pos hks]⟩
        · rw [if_neg hks]
          exact hk
      · intro s hs
        rcases List.mem_cons.mp hs with h1 | h1
        · have hsc : s = scanner := Option.some.inj h1
          subst hsc
          apply hkeep
          rw [mapGet_mapSet]
          exact ⟨_, by rw [if_pos rfl]⟩
        · exact hreg s h1

/-- An engine built by `NewSearchEngine` holds the scanners it was given and a
limiter registered under the name of each of them, so the lookup
`e.rateLimits[scanner.Name()]` of `searchSingle` always finds a limiter. -/
theorem NewSearchEngine_registered (scanners : List (Option Scanner)) (now : Int)
    (e : SearchEngine) (hnew : NewSearchEngine scanners now = some e) :
    e.scanners = scanners ∧
    ∀ s, some s ∈ e.scanners → ∃ r, mapGet e.rateLimits s.Name = some r := by
  simp only [NewSearchEngine, Option.map_eq_some'] at hnew
  obtain ⟨m, hm, rfl⟩ := hnew
  exact ⟨rfl, (registerLimits_registered now scanners [] m hm).2⟩

/-! ## A target all of whose backends fail -/

/-- C5, as stated, fails: on the engine `NewSearchEngine` builds for a backend
named `"Zone"`, a name unknown to `buildQuery`, the query is empty, yet
`searchSingle` waits on the limiter registered for the backend, calls its
`Search` with the empty query and keeps the asset it returns. -/
theorem searchSingle_empty_query_not_skipped :
    NewSearchEngine [some unknownBackend] 0 = some unknownEngine ∧
    mapGet unknownEngine.rateLimits unknownBackend.Name =
      some (newAPIRateLimit ZoneInterval 0) ∧
    buildQuery unknownBackend.Name exampleIP = "" ∧
    (searchSingle unknownEngine exampleIP 1 10).calls =
      [Call.wait "Zone", Call.search "Zone" "" 1 10] ∧
    (searchSingle unknownEngine exampleIP 1 10).results = [assetA] :=
  ⟨rfl, by decide, by decide, by decide, by decide⟩

/-- C5, amended: on an engine built by `NewSearchEngine`, a backend `B` whose
translated query is empty is not skipped. Its limiter is registered, and with
`maxPage ≥ 1` it is paginated with the empty query like any other backend: its
part of the run is the page loop on query `""`, which starts with a `wait` and a
`Search` of page 1, and the assets of a successful page 1 are in the result. -/
theorem searchSingle_empty_query_searched (scanners : List (Option Scanner)) (now : Int)
    (e : SearchEngine) (t : Target)
    (maxPage pageSize : Int) (pre post : List (Option Scanner)) (B : Scanner)
    (hnew : NewSearchEngine scanners now = some e)
    (hmax : 1 ≤ maxPage)
    (hscan : e.scanners = pre ++ some B :: post)
    (hq : buildQuery B.Name t = "") :
    (∃ r, mapGet e.rateLimits B.Name = some r) ∧
    (searchSingle e t maxPage pageSize).results =
        (searchSingle { e with scanners := pre } t maxPage pageSize).results ++
        (paginate B "" pageSize maxPage.toNat 1 Run.empty).results ++
        (searchSingle { e with scanners := post } t maxPage pageSize).results ∧
    (searchSingle e t maxPage pageSize).calls =
        (searchSingle { e with scanners := pre } t maxPage pageSize).calls ++
        (paginate B "" pageSize maxPage.toNat 1 Run.empty).calls ++
        (searchSingle { e with scanners := post } t maxPage pageSize).calls ∧
    (∃ tail, (paginate B "" pageSize maxPage.toNat 1 Run.empty).calls =
        Call.wait B.Name :: Call.search B.Name "" 1 pageSize :: tail) ∧
    (∀ assets, B.Search "" 1 pageSize = .ok assets →
      ∃ more, (paginate B "" pageSize maxPage.toNat 1 Run.empty).results = assets ++ more) := by
  have hv : visit t maxPage pageSize Run.empty (some B) =
      paginate B "" pageSize maxPage.toNat 1 Run.empty := by
    simp only [visit, hq]
  have hsplit := searchSingle_split e t maxPage pageSize pre post (some B) hscan
  rw [hv] at hsplit
  have hreg : ∃ r, mapGet e.rateLimits B.Name = some r :=
    (NewSearchEngine_registered scanners now e hnew).2 B (by rw [hscan]; simp)
  refine ⟨hreg, hsplit.1, hsplit.2, ?_, ?_⟩
  · have hhead := visit_calls_head t maxPage pageSize B hmax
    rw [hv, hq] at hhead
    exact hhead
  · intro assets hok
    obtain ⟨f, hf⟩ : ∃ f, maxPage.toNat = f + 1 := ⟨maxPage.toNat - 1, by omega⟩
    rw [hf]
    unfold paginate
    simp only [hok]
    by_cases hlen : assets.length = 0
    · exact ⟨[], by simp [hlen, Run.empty, List.length_eq_zero.mp hlen]⟩
    · simp only [hlen, if_false]
      rw [paginate_acc]
      exact ⟨_, by simp [Run.empty]; rfl⟩

/-- C5 amended, at `unknownEngine`: the backend named `"Zone"` is searched with
the empty query, two pages allowed. -/
theorem searchSingle_empty_query_searched_witness :
    (searchSingle unknownEngine exampleIP 2 10).calls =
      (searchSingle { unknownEngine with scanners := [] } exampleIP 2 10).calls ++
      (paginate unknownBackend "" 10 (2 : Int).toNat 1 Run.empty).calls ++
      (searchSingle { unknownEngine with scanners := [] } exampleIP 2 10).calls ∧
    ∃ tail, (paginate unknownBackend "" 10 (2 : Int).toNat 1 Run.empty).calls =
      Call.wait unknownBackend.Name :: Call.search unknownBackend.Name "" 1 10 :: tail :=
  ⟨(searchSingle_empty_query_searched [some unknownBackend] 0 unknownEngine
      exampleIP 2 10 [] [] unknownBackend rfl (by decide) rfl (by decide)).2.2.1,
   (searchSingle_empty_query_searched [some unknownBackend] 0 unknownEngine
      exampleIP 2 10 [] [] unknownBackend rfl (by decide) rfl (by decide)).2.2.2.1⟩

end CScan
